import Mathlib

/-!
Verification of the frame-tree / navigation / retry-polling core of
`packages/playwright-core/src/server/frames.ts`.

The development shallowly embeds the state and control flow of `frames.ts`:

* the error classification used by the retry engine (`Frame.isNonRetriableError`),
* the bounded-backoff retry loop (`Frame.retryWithProgressAndTimeouts`),
  with explicit discrete time so that the race of a backoff wait against
  scope closure / progress timeout is observable,
* the assertion evaluator (`Frame.expect` / `Frame._expectInternal`),
* the post-command resolution of `Frame.gotoImpl`,
* the `FrameManager` event-application state machine over an inductive
  tree of frames (attach, detach, navigation requested/committed/aborted,
  lifecycle events, request tracking, network-idle recalculation).

Asynchronous waits are modelled with explicit time stamps and a single
`close` event standing for whichever of the raced scopes (page `openScope`,
frame `_detachedScope`, progress timeout) settles first, as §5 of the design
allows: all state mutation is synchronous between suspension points, and
timeouts are ordinary scopes.
-/

namespace PlaywrightFrames

/-! ## Error model

`frames.ts` classifies caught exceptions with external predicates
(`isAbortError`, `js.isJavaScriptErrorInEvaluate`, `isSessionClosedError`,
`dom.isNonRecoverableDOMError`, `isInvalidSelectorError`, `e instanceof
TimeoutError`).  Those predicates live in collaborator modules, so an error
is embedded as the tuple of its classification results; `frames.ts` itself
never inspects anything else about an error it catches. -/

structure ErrE where
  isAbort : Bool
  isJsEval : Bool
  isSessionClosed : Bool
  isDomNonRecoverable : Bool
  isInvalidSelector : Bool
  isTimeout : Bool
deriving DecidableEq, Repr

/-- `Frame.isNonRetriableError` (frames.ts:1058-1072): abort errors,
JavaScript evaluation faults, closed sessions, non-recoverable DOM errors,
invalid selectors, and any error caught while the frame is detached. -/
def isNonRetriableError (detached : Bool) (e : ErrE) : Bool :=
  e.isAbort || e.isJsEval || e.isSessionClosed || e.isDomNonRecoverable ||
    e.isInvalidSelector || detached

/-! ## Retry engine

`Frame.retryWithProgressAndTimeouts` (frames.ts:1030-1056).  The loop keeps
an index into `[0, ...timeouts]` clamped to the final entry, waits for the
selected delay when it is non-zero — racing the wait against the page open
scope, the frame detached scope and the progress timeout — and then runs
the action, swallowing retriable errors and propagating non-retriable ones.

The model makes time explicit: the step itself is instantaneous (state
mutation between suspension points is atomic, spec §5), waits advance the
clock, and `close = some (c, ce)` says that the earliest raced scope closes
at absolute time `c` with reason `ce`.  `fuel` bounds the number of loop
iterations so the function is total; theorems quantify over sufficient
fuel. -/

inductive StepOut (R : Type) where
  | done (r : R)
  | cont
  | err (e : ErrE)

/-- One loop iteration's delay: `timeouts[Math.min(timeoutIndex++, timeouts.length - 1)]`. -/
def delayAt (timeouts : List Nat) (i : Nat) : Nat :=
  timeouts.getD (min i (timeouts.length - 1)) 0

/-- Does the raced wait of this iteration (delay `d`, starting at time `t`)
settle with the close reason?  The wait is only performed when `d ≠ 0`
(`if (timeout) { ... }` in the source), and the race is won by the closure
whenever it happens no later than the wait would complete. -/
def waitSettles (close : Option (Nat × ErrE)) (t d : Nat) : Option (ErrE × Nat) :=
  match close with
  | some (c, ce) => if d ≠ 0 ∧ c ≤ t + d then some (ce, max t c) else none
  | none => none

/-- The loop of `retryWithProgressAndTimeouts`, after the `[0, ...timeouts]`
prepend.  Arguments: loop index `i`, current time `t`, threaded step state
`s` (mutable variables captured by the action closure, e.g. `expect`'s
`lastIntermediateResult`).  Returns the loop outcome, the settle time, and
the final threaded state. -/
def retryLoop {R σ : Type} (timeouts : List Nat) (step : Nat → σ → StepOut R × σ)
    (detached : Bool) (close : Option (Nat × ErrE)) :
    Nat → Nat → Nat → σ → Option (Except ErrE R × Nat × σ)
  | 0, _, _, _ => none
  | fuel + 1, i, t, s =>
    let d := delayAt timeouts i
    match waitSettles close t d with
    | some (ce, tc) =>
      -- the raced wait settles with the close reason, at the moment of closure
      some (Except.error ce, tc, s)
    | none =>
      let t1 := if d = 0 then t else t + d
      match step i s with
      | (StepOut.done r, s1) => some (Except.ok r, t1, s1)
      | (StepOut.cont, s1) => retryLoop timeouts step detached close fuel (i + 1) t1 s1
      | (StepOut.err e, s1) =>
        if isNonRetriableError detached e then some (Except.error e, t1, s1)
        else retryLoop timeouts step detached close fuel (i + 1) t1 s1

/-- `Frame.retryWithProgressAndTimeouts`: prepends the zero delay and runs the loop. -/
def retryWithProgressAndTimeouts {R σ : Type} (timeouts : List Nat)
    (step : Nat → σ → StepOut R × σ) (detached : Bool) (close : Option (Nat × ErrE))
    (fuel : Nat) (s : σ) : Option (Except ErrE R × Nat × σ) :=
  retryLoop (0 :: timeouts) step detached close fuel 0 0 s

/-- The delay schedule as the spec words it: "the next delay in
`delaySchedule`, clamped to the last entry once exhausted". -/
def clampedScheduleDelay (timeouts : List Nat) (i : Nat) : Nat :=
  if i < timeouts.length then timeouts.getD i 0 else (timeouts.getLast?).getD 0

theorem delayAt_eq_clampedScheduleDelay (timeouts : List Nat) (i : Nat) :
    delayAt timeouts i = clampedScheduleDelay timeouts i := by
  unfold delayAt clampedScheduleDelay
  by_cases hi : i < timeouts.length
  · have hmin : min i (timeouts.length - 1) = i := by omega
    rw [hmin, if_pos hi]
  · rw [if_neg hi]
    have hmin : min i (timeouts.length - 1) = timeouts.length - 1 := by omega
    rw [hmin, List.getLast?_eq_getElem?, List.getD_eq_getElem?_getD]

/-! ## C6: error classification in the retry loop -/

theorem retryLoop_classify {R : Type} (timeouts : List Nat) (steps : Nat → StepOut R)
    (detached : Bool) (i : Nat) :
    ∀ fuel j t, j ≤ i → i < j + fuel →
    (∀ k, j ≤ k → k < i → steps k = StepOut.cont ∨
      ∃ e, steps k = StepOut.err e ∧ isNonRetriableError detached e = false) →
    (∀ e, steps i = StepOut.err e → isNonRetriableError detached e = true →
      ∃ t2, retryLoop timeouts (fun k u => (steps k, u)) detached none fuel j t () =
        some (Except.error e, t2, ())) ∧
    (∀ r, steps i = StepOut.done r →
      ∃ t2, retryLoop timeouts (fun k u => (steps k, u)) detached none fuel j t () =
        some (Except.ok r, t2, ())) := by
  intro fuel
  induction fuel with
  | zero => intro j t hj hlt _; omega
  | succ fuel ih =>
    intro j t hj hlt hskip
    by_cases hji : j = i
    · subst hji
      constructor
      · intro e he hne
        refine ⟨if delayAt timeouts j = 0 then t else t + delayAt timeouts j, ?_⟩
        simp only [retryLoop, waitSettles, he, hne]
        simp
      · intro r hr
        refine ⟨if delayAt timeouts j = 0 then t else t + delayAt timeouts j, ?_⟩
        simp only [retryLoop, waitSettles, hr]
    · have hjlt : j < i := by omega
      have := hskip j (Nat.le_refl j) hjlt
      have hrec := ih (j + 1) (if delayAt timeouts j = 0 then t else t + delayAt timeouts j)
        (by omega) (by omega)
        (fun k hk1 hk2 => hskip k (by omega) hk2)
      rcases this with hc | ⟨e0, he0, hre0⟩
      · constructor
        · intro e he hne
          rcases hrec.1 e he hne with ⟨t2, ht2⟩
          exact ⟨t2, by simp only [retryLoop, waitSettles, hc]; exact ht2⟩
        · intro r hr
          rcases hrec.2 r hr with ⟨t2, ht2⟩
          exact ⟨t2, by simp only [retryLoop, waitSettles, hc]; exact ht2⟩
      · constructor
        · intro e he hne
          rcases hrec.1 e he hne with ⟨t2, ht2⟩
          exact ⟨t2, by simp only [retryLoop, waitSettles, he0, hre0]; exact ht2⟩
        · intro r hr
          rcases hrec.2 r hr with ⟨t2, ht2⟩
          exact ⟨t2, by simp only [retryLoop, waitSettles, he0, hre0]; exact ht2⟩

/-- **C6**.  In `Frame.retryWithProgressAndTimeouts`, a step error that is an
abort/scope-closure error, a JavaScript evaluation fault, a closed-session
error, a non-recoverable DOM error, an invalid-selector error, or any error
while the frame is detached, propagates out of the loop as soon as it is
raised; every other step error (and every continue-polling sentinel) is
swallowed and the loop performs another attempt.  Here the first
non-skippable step outcome at index `i` decides the run. -/
theorem retry_error_classification {R : Type} (timeouts : List Nat) (steps : Nat → StepOut R)
    (detached : Bool) (i fuel : Nat)
    (hskip : ∀ j, j < i → steps j = StepOut.cont ∨
      ∃ e, steps j = StepOut.err e ∧ isNonRetriableError detached e = false)
    (hfuel : i < fuel) :
    (∀ e, steps i = StepOut.err e → isNonRetriableError detached e = true →
      ∃ t, retryWithProgressAndTimeouts timeouts (fun k u => (steps k, u)) detached none fuel () =
        some (Except.error e, t, ())) ∧
    (∀ r, steps i = StepOut.done r →
      ∃ t, retryWithProgressAndTimeouts timeouts (fun k u => (steps k, u)) detached none fuel () =
        some (Except.ok r, t, ())) := by
  have := retryLoop_classify (0 :: timeouts) steps detached i fuel 0 0 (Nat.zero_le i)
    (by omega) (fun k _ hk2 => hskip k hk2)
  exact this

/-- Concrete step sequence for the C6 witness: one continue, one retriable
error, then a JavaScript-evaluation fault. -/
def c6Steps : Nat → StepOut Nat
  | 0 => StepOut.cont
  | 1 => StepOut.err ⟨false, false, false, false, false, false⟩
  | _ => StepOut.err ⟨false, true, false, false, false, false⟩

theorem retry_error_classification_witness :
    ∃ t, retryWithProgressAndTimeouts [20, 50] (fun k u => (c6Steps k, u)) false none 5 () =
      some (Except.error ⟨false, true, false, false, false, false⟩, t, ()) := by
  have hskip : ∀ j, j < 2 → c6Steps j = StepOut.cont ∨
      ∃ e, c6Steps j = StepOut.err e ∧ isNonRetriableError false e = false := by
    intro j hj
    interval_cases j
    · exact Or.inl rfl
    · exact Or.inr ⟨⟨false, false, false, false, false, false⟩, rfl, rfl⟩
  exact (retry_error_classification [20, 50] c6Steps false 2 5 hskip (by omega)).1
    ⟨false, true, false, false, false, false⟩ rfl rfl

/-! ## C7: scope closure settles the retry at the moment of closure -/

theorem getD_last (l : List Nat) : l.getD (l.length - 1) 0 = (l.getLast?).getD 0 := by
  rw [List.getLast?_eq_getElem?, List.getD_eq_getElem?_getD]

/-- A step outcome the loop swallows: the continue-polling sentinel or a
retriable error (frames.ts:1045-1054). -/
def stepSwallowed {R : Type} (detached : Bool) (o : StepOut R) : Prop :=
  o = StepOut.cont ∨ ∃ e, o = StepOut.err e ∧ isNonRetriableError detached e = false

theorem retryLoop_settles_at_closure {R σ : Type} (timeouts : List Nat)
    (step : Nat → σ → StepOut R × σ) (detached : Bool) (c : Nat) (ce : ErrE) (P : σ → Prop)
    (hcont : ∀ k s0, stepSwallowed detached (step k s0).1)
    (hP : ∀ k s0, P s0 → P (step k s0).2)
    (hD : ∀ j, timeouts.length - 1 ≤ j → delayAt timeouts j ≠ 0) :
    ∀ fuel i t s, P s → t ≤ c → (timeouts.length - i) + (c + 1 - t) ≤ fuel →
    ∃ s1, retryLoop timeouts step detached (some (c, ce)) fuel i t s =
      some (Except.error ce, c, s1) ∧ P s1 := by
  intro fuel
  induction fuel with
  | zero => intro i t s _ ht hm; omega
  | succ fuel ih =>
    intro i t s hs ht hm
    by_cases hset : delayAt timeouts i ≠ 0 ∧ c ≤ t + delayAt timeouts i
    · refine ⟨s, ?_, hs⟩
      simp only [retryLoop, waitSettles, if_pos hset]
      rw [Nat.max_eq_right ht]
    · rcases hss : step i s with ⟨o, s2⟩
      have hstep := hcont i s
      rw [hss] at hstep
      have hs2 : P s2 := by
        have := hP i s hs
        rw [hss] at this
        exact this
      have hrec : ∀ t1, t1 ≤ c → (timeouts.length - (i + 1)) + (c + 1 - t1) ≤ fuel →
          ∃ s1, retryLoop timeouts step detached (some (c, ce)) fuel (i + 1) t1 s2 =
            some (Except.error ce, c, s1) ∧ P s1 :=
        fun t1 ht1 hm1 => ih (i + 1) t1 s2 hs2 ht1 hm1
      have hred : ∀ s1, retryLoop timeouts step detached (some (c, ce)) fuel (i + 1)
            (if delayAt timeouts i = 0 then t else t + delayAt timeouts i) s2 =
            some (Except.error ce, c, s1) →
          retryLoop timeouts step detached (some (c, ce)) (fuel + 1) i t s =
            some (Except.error ce, c, s1) := by
        intro s1 h1
        rcases hstep with hoc | ⟨e, hoe, hre⟩
        · subst hoc
          simp only [retryLoop, waitSettles, if_neg hset, hss]
          exact h1
        · subst hoe
          simp only [retryLoop, waitSettles, if_neg hset, hss, hre]
          simpa using h1
      by_cases hd0 : delayAt timeouts i = 0
      · have hilt : i < timeouts.length - 1 := by
          by_contra hge
          exact (hD i (by omega)) hd0
        obtain ⟨s1, hs1, hPs1⟩ := hrec t ht (by omega)
        refine ⟨s1, hred s1 ?_, hPs1⟩
        rw [if_pos hd0]
        exact hs1
      · have hdpos : 1 ≤ delayAt timeouts i := by omega
        have hlt : t + delayAt timeouts i < c := by
          rcases Decidable.not_and_iff_or_not.mp hset with h | h
          · exact absurd hd0 (by simpa using h)
          · omega
        obtain ⟨s1, hs1, hPs1⟩ := hrec (t + delayAt timeouts i) (by omega) (by omega)
        refine ⟨s1, hred s1 ?_, hPs1⟩
        rw [if_neg hd0]
        exact hs1

/-- Shared wrapper: from the caller's schedule (before the zero prepend),
a loop whose steps are always swallowed settles with the close reason at
exactly the closure time, preserving any invariant of the threaded state. -/
theorem retry_settles_shared {R σ : Type} (timeouts : List Nat)
    (step : Nat → σ → StepOut R × σ) (detached : Bool) (c fuel : Nat) (ce : ErrE) (s : σ)
    (P : σ → Prop)
    (hlast : (timeouts.getLast?).getD 0 ≠ 0)
    (hcont : ∀ k s0, stepSwallowed (R := R) detached (step k s0).1)
    (hP : ∀ k s0, P s0 → P (step k s0).2)
    (hs : P s)
    (hfuel : timeouts.length + c + 2 ≤ fuel) :
    ∃ s1, retryWithProgressAndTimeouts timeouts step detached (some (c, ce)) fuel s =
      some (Except.error ce, c, s1) ∧ P s1 := by
  have hne : timeouts ≠ [] := by
    intro h
    subst h
    simp at hlast
  have hD : ∀ j, (0 :: timeouts).length - 1 ≤ j → delayAt (0 :: timeouts) j ≠ 0 := by
    intro j hj
    have hmin : min j ((0 :: timeouts).length - 1) = (0 :: timeouts).length - 1 := by omega
    unfold delayAt
    rw [hmin]
    have hlen : (0 :: timeouts).length - 1 = (timeouts.length - 1) + 1 := by
      have : timeouts.length ≠ 0 := fun h => hne (List.eq_nil_of_length_eq_zero h)
      simp
      omega
    rw [hlen, List.getD_cons_succ, getD_last]
    exact hlast
  exact retryLoop_settles_at_closure (0 :: timeouts) step detached c ce P hcont hP hD fuel 0 0 s
    hs (Nat.zero_le c) (by simp; omega)

/-- **C7**.  With a step that perpetually returns the continue-polling
sentinel, closing any of the raced scopes (page open scope, frame detached
scope or progress timeout — merged into the single earliest close event
`(c, ce)`) settles `retryWithProgressAndTimeouts` at exactly time `c`,
including when the closure lands during a backoff wait: the loop never runs
one more full backoff delay after closure.  Each iteration's delay is the
next entry of the `[0, ...delaySchedule]` sequence, clamped to the last
entry once the schedule is exhausted. -/
theorem retry_closure_settles_immediately {R σ : Type} (timeouts : List Nat)
    (step : Nat → σ → StepOut R × σ) (detached : Bool) (c fuel : Nat) (ce : ErrE) (s : σ)
    (hlast : (timeouts.getLast?).getD 0 ≠ 0)
    (hcont : ∀ k s0, (step k s0).1 = StepOut.cont (R := R))
    (hfuel : timeouts.length + c + 2 ≤ fuel) :
    (∃ s1, retryWithProgressAndTimeouts timeouts step detached (some (c, ce)) fuel s =
      some (Except.error ce, c, s1)) ∧
    (∀ i, delayAt (0 :: timeouts) i = clampedScheduleDelay (0 :: timeouts) i) := by
  constructor
  · obtain ⟨s1, h1, _⟩ := retry_settles_shared timeouts step detached c fuel ce s
      (fun _ => True) hlast (fun k s0 => Or.inl (hcont k s0)) (fun _ _ _ => trivial) trivial hfuel
    exact ⟨s1, h1⟩
  · intro i
    exact delayAt_eq_clampedScheduleDelay (0 :: timeouts) i

theorem retry_closure_settles_immediately_witness :
    (∃ s1, retryWithProgressAndTimeouts [100, 250, 500, 1000]
        (fun _ (u : Unit) => (StepOut.cont (R := Nat), u)) false
        (some (150, ⟨true, false, false, false, false, false⟩)) 160 () =
      some (Except.error ⟨true, false, false, false, false, false⟩, 150, s1)) ∧
    (∀ i, delayAt (0 :: [100, 250, 500, 1000]) i =
      clampedScheduleDelay (0 :: [100, 250, 500, 1000]) i) :=
  retry_closure_settles_immediately [100, 250, 500, 1000]
    (fun _ u => (StepOut.cont, u)) false 150 160 ⟨true, false, false, false, false, false⟩ ()
    (by decide) (fun _ _ => rfl) (by decide)

/-! ## Assertion evaluator: `Frame.expect` / `Frame._expectInternal`

One call to `_expectInternal` (frames.ts:1404-1439) either throws or yields
`{ matches, received, missingReceived }` and, when `matches === options.isNot`,
records the last intermediate result.  The sequence of attempt outcomes the
in-page evaluation would produce is abstracted as `attempts : Nat → AttemptOut`
(attempt 0 is the one-shot, attempt `k + 1` the `k`-th retry attempt). -/

structure ExpectAttemptOk where
  matched : Bool  -- source field `matches`; `matches` is reserved syntax in Lean
  received : String
  missingReceived : Bool
deriving DecidableEq, Repr

inductive AttemptOut where
  | ok (a : ExpectAttemptOk)
  | err (e : ErrE)
deriving DecidableEq, Repr

/-- frames.ts:1432-1437: when the attempt matches `isNot`, remember the
received value (`'<element(s) not found>'` when the element was missing). -/
def recordIntermediate (isNot : Bool) (a : ExpectAttemptOk) (last : Option String) :
    Option String :=
  if a.matched = isNot then
    some (if a.missingReceived then "<element(s) not found>" else a.received)
  else last

structure ExpectResultM where
  matched : Bool  -- source field `matches`; `matches` is reserved syntax in Lean
  received : Option String
  timedOut : Bool
deriving DecidableEq, Repr

/-- The retry-phase step (frames.ts:1376-1386) on one attempt outcome: keep
polling while `matches === options.isNot`, otherwise finish with the pair. -/
def expectStepOutcome (isNot : Bool) (last : Option String) :
    AttemptOut → StepOut (Bool × String) × Option String
  | AttemptOut.ok a =>
    (if a.matched = isNot then StepOut.cont else StepOut.done (a.matched, a.received),
      recordIntermediate isNot a last)
  | AttemptOut.err e => (StepOut.err e, last)

/-- The retry-phase step as fed to `retryWithProgressAndTimeouts`: retry
attempt `k` evaluates attempt `k + 1` of the overall sequence (attempt 0 is
the one-shot). -/
def expectStep (isNot : Bool) (attempts : Nat → AttemptOut) (k : Nat) (last : Option String) :
    StepOut (Bool × String) × Option String :=
  expectStepOutcome isNot last (attempts (k + 1))

/-- The outer catch of `expect` (frames.ts:1389-1401): rethrow JavaScript
evaluation faults and invalid-selector errors; convert everything else into
a structured result carrying `matches := isNot`, the last intermediate
received value, and `timedOut := true` exactly for `TimeoutError`. -/
def expectOuterCatch (isNot : Bool) (e : ErrE) (last : Option String) :
    Except ErrE ExpectResultM :=
  if e.isJsEval || e.isInvalidSelector then Except.error e
  else Except.ok ⟨isNot, last, e.isTimeout⟩

/-- How `expect` finishes from the retry loop's outcome: a conclusive pair
becomes `{ matches, received }`, an escaped error goes through the outer
catch. -/
def expectRetryOutcome (isNot : Bool) :
    Option (Except ErrE (Bool × String) × Nat × Option String) →
    Option (Except ErrE ExpectResultM)
  | none => none
  | some (Except.ok (m, r), _, _) => some (Except.ok ⟨m, some r, false⟩)
  | some (Except.error e, _, lastF) => some (expectOuterCatch isNot e lastF)

/-- Step 3 of `expect`: the auto-retry escalation with delays
`[100, 250, 500, 1000]` (frames.ts:1376). -/
def expectRetryPhase (isNot : Bool) (attempts : Nat → AttemptOut) (detached : Bool)
    (close : Option (Nat × ErrE)) (fuel : Nat) (last : Option String) :
    Option (Except ErrE ExpectResultM) :=
  expectRetryOutcome isNot (retryWithProgressAndTimeouts [100, 250, 500, 1000]
    (expectStep isNot attempts) detached close fuel last)

/-- Step 2 of `expect` applied to the one-shot outcome: `_expectInternal`
runs with `noAbort = true`, so it does not race the caller's progress or
scopes; a conclusive result (`matches !== options.isNot`) returns
immediately, a non-retriable error goes to the outer catch
(frames.ts:1369-1373), anything else falls through to the retry phase. -/
def expectOneShot (isNot : Bool) (attempts : Nat → AttemptOut) (detached : Bool)
    (close : Option (Nat × ErrE)) (fuel : Nat) :
    AttemptOut → Option (Except ErrE ExpectResultM)
  | AttemptOut.ok a =>
    if a.matched ≠ isNot then some (Except.ok ⟨a.matched, some a.received, false⟩)
    else expectRetryPhase isNot attempts detached close fuel (recordIntermediate isNot a none)
  | AttemptOut.err e =>
    if isNonRetriableError detached e then some (expectOuterCatch isNot e none)
    else expectRetryPhase isNot attempts detached close fuel none

/-- `Frame.expect` (frames.ts:1348-1402): one-shot, then retries. -/
def expectSim (isNot : Bool) (attempts : Nat → AttemptOut) (detached : Bool)
    (close : Option (Nat × ErrE)) (fuel : Nat) : Option (Except ErrE ExpectResultM) :=
  expectOneShot isNot attempts detached close fuel (attempts 0)

theorem expectOuterCatch_error {isNot : Bool} {e0 e : ErrE} {l : Option String}
    (h : expectOuterCatch isNot e0 l = Except.error e) :
    e.isJsEval = true ∨ e.isInvalidSelector = true := by
  unfold expectOuterCatch at h
  by_cases hc : e0.isJsEval || e0.isInvalidSelector
  · rw [if_pos hc] at h
    cases h
    exact Bool.or_eq_true _ _ |>.mp hc
  · rw [if_neg hc] at h
    cases h

theorem expectRetryPhase_error {isNot : Bool} {attempts : Nat → AttemptOut} {detached : Bool}
    {close : Option (Nat × ErrE)} {fuel : Nat} {last : Option String} {e : ErrE}
    (h : expectRetryPhase isNot attempts detached close fuel last = some (Except.error e)) :
    e.isJsEval = true ∨ e.isInvalidSelector = true := by
  unfold expectRetryPhase at h
  rcases hrun : retryWithProgressAndTimeouts [100, 250, 500, 1000] (expectStep isNot attempts)
      detached close fuel last with _ | ⟨exc, t1, l1⟩
  · rw [hrun] at h
    cases h
  · rw [hrun] at h
    rcases exc with e2 | ⟨m, r⟩
    · have h2 : expectOuterCatch isNot e2 l1 = Except.error e := by
        simpa [expectRetryOutcome] using h
      exact expectOuterCatch_error h2
    · simp [expectRetryOutcome] at h

/-- The value `expect`'s structured failure may carry: nothing recorded yet,
or the received value of some attempt that matched `isNot` (with the
element-missing placeholder). -/
def lastObserved (isNot : Bool) (attempts : Nat → AttemptOut) (last : Option String) : Prop :=
  last = none ∨ ∃ k a, attempts k = AttemptOut.ok a ∧ a.matched = isNot ∧
    last = some (if a.missingReceived then "<element(s) not found>" else a.received)

theorem expectStep_swallowed (isNot : Bool) (attempts : Nat → AttemptOut) (detached : Bool)
    (hnm : ∀ k a, attempts k = AttemptOut.ok a → a.matched = isNot)
    (herr : ∀ k e, attempts k = AttemptOut.err e → isNonRetriableError detached e = false) :
    ∀ k s0, stepSwallowed detached (expectStep isNot attempts k s0).1 := by
  intro k s0
  unfold expectStep
  rcases ha : attempts (k + 1) with a | e
  · simp only [expectStepOutcome, hnm (k + 1) a ha, if_pos]
    exact Or.inl rfl
  · exact Or.inr ⟨e, rfl, herr (k + 1) e ha⟩

theorem expectStep_lastObserved (isNot : Bool) (attempts : Nat → AttemptOut) :
    ∀ k s0, lastObserved isNot attempts s0 →
      lastObserved isNot attempts (expectStep isNot attempts k s0).2 := by
  intro k s0 h0
  unfold expectStep
  rcases ha : attempts (k + 1) with a | e
  · simp only [expectStepOutcome]
    unfold recordIntermediate
    by_cases hm : a.matched = isNot
    · rw [if_pos hm]
      exact Or.inr ⟨k + 1, a, ha, hm, rfl⟩
    · rw [if_neg hm]
      exact h0
  · exact h0

theorem expectRetryPhase_timeout (isNot : Bool) (attempts : Nat → AttemptOut) (detached : Bool)
    (c fuel : Nat) (ce : ErrE) (last0 : Option String)
    (hnm : ∀ k a, attempts k = AttemptOut.ok a → a.matched = isNot)
    (herr : ∀ k e, attempts k = AttemptOut.err e → isNonRetriableError detached e = false)
    (hj : ce.isJsEval = false) (hv : ce.isInvalidSelector = false)
    (hP0 : lastObserved isNot attempts last0)
    (hfuel : c + 6 ≤ fuel) :
    ∃ last, expectRetryPhase isNot attempts detached (some (c, ce)) fuel last0 =
        some (Except.ok ⟨isNot, last, ce.isTimeout⟩) ∧
      lastObserved isNot attempts last := by
  obtain ⟨s1, hrun, hPs1⟩ := retry_settles_shared [100, 250, 500, 1000]
    (expectStep isNot attempts) detached c fuel ce last0 (lastObserved isNot attempts)
    (by decide) (expectStep_swallowed isNot attempts detached hnm herr)
    (expectStep_lastObserved isNot attempts) hP0 (by simp; omega)
  refine ⟨s1, ?_, hPs1⟩
  unfold expectRetryPhase
  rw [hrun]
  simp only [expectRetryOutcome]
  unfold expectOuterCatch
  rw [hj, hv]
  simp

/-- **C5**.  `expect` never raises for a failed match condition.  Part one:
whatever the attempt outcomes and closure, an exception escapes `expect`
only when it is a JavaScript evaluation fault or an invalid-selector error
(a subset of the claim's programmer errors / scope closure).  Part two:
when the condition keeps failing to match (every attempt yields
`matches === isNot` or a retriable error) and the raced scopes settle the
retry at time `c` with reason `ce`, `expect` returns the structured result
`{ matches := isNot, received := last observed value when one was recorded,
timedOut := (ce instanceof TimeoutError) }` instead of raising. -/
theorem expect_returns_structured_result (isNot : Bool) (attempts : Nat → AttemptOut)
    (detached : Bool) (close : Option (Nat × ErrE)) (fuel : Nat) :
    (∀ e, expectSim isNot attempts detached close fuel = some (Except.error e) →
      e.isJsEval = true ∨ e.isInvalidSelector = true) ∧
    (∀ c ce, close = some (c, ce) →
      (∀ k a, attempts k = AttemptOut.ok a → a.matched = isNot) →
      (∀ k e, attempts k = AttemptOut.err e → isNonRetriableError detached e = false) →
      ce.isJsEval = false → ce.isInvalidSelector = false → c + 6 ≤ fuel →
      ∃ last, expectSim isNot attempts detached close fuel =
          some (Except.ok ⟨isNot, last, ce.isTimeout⟩) ∧
        lastObserved isNot attempts last) := by
  constructor
  · intro e h
    unfold expectSim at h
    rcases h0 : attempts 0 with a | e0 <;> rw [h0] at h
    · simp only [expectOneShot] at h
      by_cases hm : a.matched ≠ isNot
      · rw [if_pos hm] at h
        cases h
      · rw [if_neg hm] at h
        exact expectRetryPhase_error h
    · simp only [expectOneShot] at h
      by_cases hn : isNonRetriableError detached e0
      · rw [if_pos hn] at h
        have h2 : expectOuterCatch isNot e0 none = Except.error e := by
          simpa using h
        exact expectOuterCatch_error h2
      · rw [if_neg hn] at h
        exact expectRetryPhase_error h
  · intro c ce hclose hnm herr hj hv hfuel
    subst hclose
    unfold expectSim
    rcases h0 : attempts 0 with a | e0
    · have hm0 : a.matched = isNot := hnm 0 a h0
      simp only [expectOneShot]
      rw [if_neg (by simpa using hm0)]
      refine expectRetryPhase_timeout isNot attempts detached c fuel ce _ hnm herr hj hv ?_ hfuel
      unfold recordIntermediate
      rw [if_pos hm0]
      exact Or.inr ⟨0, a, h0, hm0, rfl⟩
    · simp only [expectOneShot]
      rw [if_neg (by rw [herr 0 e0 h0]; exact Bool.false_ne_true)]
      exact expectRetryPhase_timeout isNot attempts detached c fuel ce none hnm herr hj hv
        (Or.inl rfl) hfuel

theorem expect_returns_structured_result_witness :
    ∃ last, expectSim false (fun _ => AttemptOut.ok ⟨false, "41", false⟩) false
        (some (150, ⟨true, false, false, false, false, true⟩)) 160 =
      some (Except.ok ⟨false, last,
        ErrE.isTimeout ⟨true, false, false, false, false, true⟩⟩) ∧
      lastObserved false (fun _ => AttemptOut.ok ⟨false, "41", false⟩) last :=
  (expect_returns_structured_result false (fun _ => AttemptOut.ok ⟨false, "41", false⟩) false
      (some (150, ⟨true, false, false, false, false, true⟩)) 160).2
    150 ⟨true, false, false, false, false, true⟩ rfl
    (fun _ a h => by cases h; rfl) (fun _ e h => by cases h) rfl rfl (by omega)

/-- **C8**.  When the condition already matches (relative to `isNot`) at
call time, the one-shot attempt of `expect` — performed without racing the
caller's cancellation scope or timeout (`noAbort = true`) — returns that
result immediately: the outcome is independent of the close event and even
of the retry fuel, so it holds when the caller's timeout is shorter than the
first scheduled backoff delay of 100ms; with `isNot = false` the result is
`{ matches := true }`. -/
theorem expect_oneshot_immediate (isNot : Bool) (attempts : Nat → AttemptOut) (detached : Bool)
    (close : Option (Nat × ErrE)) (fuel : Nat) (a : ExpectAttemptOk)
    (h0 : attempts 0 = AttemptOut.ok a) (hm : a.matched ≠ isNot) :
    expectSim isNot attempts detached close fuel =
      some (Except.ok ⟨a.matched, some a.received, false⟩) ∧
    (isNot = false → a.matched = true) := by
  constructor
  · unfold expectSim
    rw [h0]
    simp only [expectOneShot]
    rw [if_pos hm]
  · intro h
    subst h
    simpa using hm

theorem expect_oneshot_immediate_witness :
    expectSim false (fun _ => AttemptOut.ok ⟨true, "visible", false⟩) false
        (some (1, ⟨true, false, false, false, false, true⟩)) 0 =
      some (Except.ok ⟨true, some "visible", false⟩) ∧
    (false = false → true = true) :=
  expect_oneshot_immediate false (fun _ => AttemptOut.ok ⟨true, "visible", false⟩) false
    (some (1, ⟨true, false, false, false, false, true⟩)) 0 ⟨true, "visible", false⟩
    rfl (by decide)

/-! ## C1: `gotoImpl` resolution after the navigate command

`Frame.gotoImpl` (frames.ts:618-672) subscribes to internal navigation
events, issues the navigate command, and — when the command returned a
`newDocumentId` — resolves against the first event satisfying its predicate
(buffered events first, then awaited ones: equivalently, the first match in
the merged arrival-ordered stream).  It then applies the sanity check of
frames.ts:649-653 and the error check of frames.ts:654-655. -/

structure NavDocInfo where
  documentId : Option String
  reqId : Option Nat
deriving DecidableEq, Repr

structure NavEventM where
  url : String
  name : String
  newDocument : Option NavDocInfo
  error : Option Nat
  isPublic : Bool
deriving DecidableEq, Repr

/-- frames.ts:639-643: "We are interested either in this specific document,
or any other document that did commit and replaced the expected document."
`event.newDocument && (event.newDocument.documentId === navigateResult.newDocumentId || !event.error)`. -/
def gotoPredicate (d : String) (e : NavEventM) : Bool :=
  match e.newDocument with
  | some nd => decide (nd.documentId = some d) || e.error.isNone
  | none => false

inductive GotoOutcome where
  /-- the event is accepted; `goto` proceeds to the lifecycle wait and
  returns the new document's request response -/
  | resolved (e : NavEventM)
  /-- `throw new NavigationAbortedError(navigateResult.newDocumentId,
  "Navigation to ... is interrupted by another navigation to ...")` -/
  | abortedInterrupted (requested : String)
  /-- `throw event.error` -/
  | failedWithEventError (err : Nat)
  /-- no matching event in the given trace: the wait does not resolve -/
  | noMatchingEvent
deriving DecidableEq, Repr

/-- frames.ts:649-655 applied to the event that resolved the wait (if any):
first the sanity check on the document id, then the event error. -/
def gotoCheckResolved (d : String) : Option NavEventM → GotoOutcome
  | none => GotoOutcome.noMatchingEvent
  | some e =>
    match e.newDocument with
    | some nd =>
      if nd.documentId ≠ some d then GotoOutcome.abortedInterrupted d
      else
        match e.error with
        | some err => GotoOutcome.failedWithEventError err
        | none => GotoOutcome.resolved e
    | none => GotoOutcome.noMatchingEvent

/-- The resolution of `gotoImpl` when `navigateResult.newDocumentId = d`,
over the arrival-ordered navigation-event trace. -/
def gotoResolveNewDoc (d : String) (events : List NavEventM) : GotoOutcome :=
  gotoCheckResolved d (events.find? (gotoPredicate d))

/-- The event of the C1 counterexample: an unrelated document `doc2`
commits without error while `goto` waits for `doc1`. -/
def c1Event : NavEventM :=
  { url := "https://b.test/", name := "", newDocument := some ⟨some "doc2", none⟩,
    error := none, isPublic := true }

/-- **C1 counterexample**.  The claim says `goto` accepts a resolving event
whose `newDocument.documentId` differs from the requested id and carries no
error, resolving successfully.  At this concrete input the event does
resolve the wait (it satisfies the predicate and is found first), differs in
document id, carries no error — and `gotoImpl` throws
`NavigationAbortedError` instead of resolving. -/
theorem goto_superseding_document_counterexample :
    ([c1Event].find? (gotoPredicate "doc1") = some c1Event) ∧
    c1Event.error = none ∧
    gotoResolveNewDoc "doc1" [c1Event] = GotoOutcome.abortedInterrupted "doc1" := by
  decide

/-- **C1 amended**.  Whenever the event resolving `gotoImpl`'s wait carries
a `newDocument` whose `documentId` differs from the requested
`newDocumentId` — which under the wait predicate can only happen for an
event without error — `gotoImpl` throws `NavigationAbortedError`
("Navigation ... is interrupted by another navigation"), rather than
accepting the superseding document. -/
theorem goto_superseding_document_aborts (d : String) (events : List NavEventM)
    (e : NavEventM) (nd : NavDocInfo)
    (hfind : events.find? (gotoPredicate d) = some e)
    (hnd : e.newDocument = some nd)
    (hne : nd.documentId ≠ some d) :
    gotoResolveNewDoc d events = GotoOutcome.abortedInterrupted d := by
  unfold gotoResolveNewDoc
  rw [hfind]
  simp only [gotoCheckResolved, hnd]
  rw [if_pos hne]

theorem goto_superseding_document_aborts_witness :
    gotoResolveNewDoc "doc1"
      [{ url := "https://x.test/", name := "", newDocument := some ⟨some "docX", some 4⟩,
         error := some 7, isPublic := false },
       { url := "https://c.test/", name := "", newDocument := some ⟨some "doc3", none⟩,
         error := none, isPublic := true }] = GotoOutcome.abortedInterrupted "doc1" :=
  goto_superseding_document_aborts "doc1" _
    { url := "https://c.test/", name := "", newDocument := some ⟨some "doc3", none⟩,
      error := none, isPublic := true }
    ⟨some "doc3", none⟩ (by decide) rfl (by decide)

/-! ## Frame data model

State of one `Frame` (frames.ts:436-482) as far as the claims reach:
document bookkeeping, fired lifecycle events (a JS `Set`, here a `Finset`),
in-flight requests (a JS `Set` iterated in insertion order, here a `List`
with no-duplicate insertion), the network-idle quiet-window timer and its
self-idle flag, the per-world context slots, and the detached scope. -/

abbrev FrameId := String

inductive LifecycleEvent where
  | commit
  | domcontentloaded
  | load
  | networkidle
deriving DecidableEq, Repr

/-- `RegularLifecycleEvent = Exclude<LifecycleEvent, 'networkidle'>` (frames.ts:64). -/
inductive RegularLifecycleEvent where
  | commit
  | domcontentloaded
  | load
deriving DecidableEq, Repr

def RegularLifecycleEvent.toEvent : RegularLifecycleEvent → LifecycleEvent
  | RegularLifecycleEvent.commit => LifecycleEvent.commit
  | RegularLifecycleEvent.domcontentloaded => LifecycleEvent.domcontentloaded
  | RegularLifecycleEvent.load => LifecycleEvent.load

structure Request where
  id : Nat
  frameId : FrameId
  documentId : Option String
  isFavicon : Bool
deriving DecidableEq, Repr

/-- frames.ts:51-56. -/
structure DocumentInfo where
  documentId : Option String
  request : Option Request
deriving DecidableEq, Repr

/-- The state of a `ManualPromise` held in a context slot. -/
inductive PromiseState where
  | unresolvedP
  | resolvedContext
  | resolvedDestroyed (reason : String)
deriving DecidableEq, Repr

/-- One world's `ContextData` (frames.ts:46-49): whether a live context is
installed, the reason passed to `contextDestroyed` if any, and the state of
`contextPromise`. -/
structure ContextData where
  contextLive : Bool
  destroyedReason : Option String
  promise : PromiseState
deriving DecidableEq, Repr

def newContextData : ContextData := ⟨false, none, PromiseState.unresolvedP⟩

structure FrameData where
  id : FrameId
  url : String
  name : String
  currentDocument : DocumentInfo
  pendingDocument : Option DocumentInfo
  fired : Finset LifecycleEvent
  firedNetworkIdleSelf : Bool
  inflight : List Request
  timerArmed : Bool
  ctxMain : ContextData
  ctxUtility : ContextData
  detached : Bool
deriving DecidableEq

def kDummyFrameId : FrameId := "<dummy>"

/-- `Frame` constructor (frames.ts:462-482): empty documents, `'commit'`
pre-fired, fresh unresolved context promises for both worlds, and the
network-idle timer armed unless this is the dummy frame. -/
def newFrame (id : FrameId) : FrameData :=
  { id := id, url := "", name := "",
    currentDocument := ⟨none, none⟩, pendingDocument := none,
    fired := {LifecycleEvent.commit},
    firedNetworkIdleSelf := false,
    inflight := [],
    timerArmed := if id = kDummyFrameId then false else true,
    ctxMain := newContextData, ctxUtility := newContextData,
    detached := false }

/-- `_stopNetworkIdleTimer` (frames.ts:1615-1620): clears the timer and the
self-idle flag. -/
def stopNetworkIdleTimer (f : FrameData) : FrameData :=
  { f with timerArmed := false, firedNetworkIdleSelf := false }

/-- `_startNetworkIdleTimer` (frames.ts:1602-1613): do not arm for frames
that already fired `networkidle` or are detached. -/
def startNetworkIdleTimer (f : FrameData) : FrameData :=
  if LifecycleEvent.networkidle ∈ f.fired ∨ f.detached = true then f
  else { f with timerArmed := true }

/-- `FrameManager.frameRequestedNavigation`'s per-frame effect
(frames.ts:195-201); the signal-barrier notification touches only barrier
state.  When the pending document already carries the same `documentId`,
the call returns without overriding the request; otherwise a new pending
document is installed, adopting the in-flight request found for the
`documentId` (`Array.from(set).find` = first in insertion order). -/
def frameRequestedNavigationData (documentId : Option String) (f : FrameData) : FrameData :=
  match f.pendingDocument with
  | some p =>
    if p.documentId = documentId then f
    else
      { f with pendingDocument := some ⟨documentId,
          match documentId with
          | some _ => f.inflight.find? (fun r => decide (r.documentId = documentId))
          | none => none⟩ }
  | none =>
    { f with pendingDocument := some ⟨documentId,
        match documentId with
        | some _ => f.inflight.find? (fun r => decide (r.documentId = documentId))
        | none => none⟩ }

/-- The commit's document bookkeeping (frames.ts:211-234): returns the new
`currentDocument` and the `keepPending` value restored at the end. -/
def commitDocPair (docId : String) : Option DocumentInfo → DocumentInfo × Option DocumentInfo
  | some p =>
    let p1 := if p.documentId = none then { p with documentId := some docId } else p
    if p1.documentId = some docId then (p1, none)
    else (⟨some docId, none⟩, some p1)
  | none => (⟨some docId, none⟩, none)

/-- The per-frame part of `_onClearLifecycle` (frames.ts:498-507), before
the closing `_onLifecycleEvent('commit')`: clear the fired set, keep only
the current navigation request in flight, stop the idle timer and re-arm it
if nothing is in flight. -/
def clearLifecycleData (f : FrameData) : FrameData :=
  let inflight1 := f.inflight.filter (fun r => decide (f.currentDocument.request = some r))
  let f1 := stopNetworkIdleTimer
    { f with fired := (∅ : Finset LifecycleEvent), inflight := inflight1 }
  if inflight1.length = 0 then startNetworkIdleTimer f1 else f1

/-- `_inflightRequestStarted` (frames.ts:359-366). -/
def inflightRequestStartedData (r : Request) (f : FrameData) : FrameData :=
  if r.isFavicon then f
  else
    let inflight1 := if r ∈ f.inflight then f.inflight else f.inflight ++ [r]
    let f1 := { f with inflight := inflight1 }
    if inflight1.length = 1 then stopNetworkIdleTimer f1 else f1

/-- `FrameManager.requestStarted`'s per-frame effect (frames.ts:293-306):
inflight tracking, then a pending document for requests carrying a
`documentId` (the favicon early-return only skips routing/emission). -/
def requestStartedData (r : Request) (f : FrameData) : FrameData :=
  let f1 := inflightRequestStartedData r f
  match r.documentId with
  | some d => { f1 with pendingDocument := some ⟨some d, some r⟩ }
  | none => f1

/-- `_inflightRequestFinished` (frames.ts:348-357). -/
def inflightRequestFinishedData (r : Request) (f : FrameData) : FrameData :=
  if r.isFavicon then f
  else if r ∈ f.inflight then
    let inflight1 := f.inflight.erase r
    let f1 := { f with inflight := inflight1 }
    if inflight1.length = 0 then startNetworkIdleTimer f1 else f1
  else f

/-- `frameAbortedNavigation`'s per-frame effect (frames.ts:262-277): no-op
without a pending document or on a `documentId` mismatch, otherwise the
pending document is cleared (the emitted error event carries it away). -/
def frameAbortedNavigationData (documentId : Option String) (f : FrameData) : FrameData :=
  match f.pendingDocument with
  | none => f
  | some p =>
    match documentId with
    | some d => if p.documentId ≠ some d then f else { f with pendingDocument := none }
    | none => { f with pendingDocument := none }

/-- `requestFailed`'s per-frame effect (frames.ts:321-333). -/
def requestFailedData (r : Request) (f : FrameData) : FrameData :=
  let f1 := inflightRequestFinishedData r f
  match f1.pendingDocument with
  | some p =>
    if p.request = some r then frameAbortedNavigationData p.documentId f1 else f1
  | none => f1

/-- `frameCommittedSameDocumentNavigation`'s per-frame effect
(frames.ts:247-260). -/
def frameCommittedSameDocumentNavigationData (url : String) (f : FrameData) : FrameData :=
  let f1 :=
    match f.pendingDocument with
    | some p =>
      if p.documentId = none ∧ p.request = none then { f with pendingDocument := none } else f
    | none => f
  { f1 with url := url }

/-- `settleContext`: the two context effects of `_onDetached`
(frames.ts:1533-1537) on one world: a live context is destroyed with reason
`"Frame was detached"`, and the context promise — a `ManualPromise`, whose
`resolve` is a no-op once settled — is resolved with that destroyed reason
exactly when it is still pending. -/
def settleContext (c : ContextData) : ContextData :=
  { contextLive := c.contextLive,
    destroyedReason := if c.contextLive then some "Frame was detached" else c.destroyedReason,
    promise :=
      match c.promise with
      | PromiseState.unresolvedP => PromiseState.resolvedDestroyed "Frame was detached"
      | p => p }

/-- `Frame._onDetached` (frames.ts:1530-1541): stop the idle timer, close
the detached scope with `Error('Frame was detached')`, settle both worlds'
context slots.  (The parent/child unlinking is the tree removal itself.) -/
def onDetachedData (f : FrameData) : FrameData :=
  let f1 := stopNetworkIdleTimer f
  { f1 with
    detached := true,
    ctxMain := settleContext f1.ctxMain,
    ctxUtility := settleContext f1.ctxUtility }

/-! ## The frame tree

The page's frame tree: each node owns its `FrameData` and its ordered list
of child frames (`_childFrames`, a `Set` in insertion order).  Every
recursion is defined mutually with its list companion so that it is
structural (and therefore computes inside the kernel). -/

inductive FrameTree where
  | node (data : FrameData) (children : List FrameTree)

def FrameTree.data : FrameTree → FrameData
  | FrameTree.node d _ => d

def FrameTree.children : FrameTree → List FrameTree
  | FrameTree.node _ cs => cs

/-- Strong induction over the nested tree type. -/
theorem FrameTree.strongInd {P : FrameTree → Prop}
    (h : ∀ d cs, (∀ c, c ∈ cs → P c) → P (FrameTree.node d cs)) : ∀ t, P t
  | FrameTree.node d cs => h d cs (fun c hc => FrameTree.strongInd h c)
termination_by t => sizeOf t
decreasing_by
  simp only [FrameTree.node.sizeOf_spec]
  have := List.sizeOf_lt_of_mem hc
  omega

mutual
/-- All frame ids of a tree, preorder. -/
def treeIds : FrameTree → List FrameId
  | FrameTree.node d cs => d.id :: treeIdsList cs
def treeIdsList : List FrameTree → List FrameId
  | [] => []
  | c :: cs => treeIds c ++ treeIdsList cs
end

mutual
/-- `FrameManager.frame(frameId)` restricted to a tree: the first node with
the given id (root first, then children in order). -/
def findSubtree (fid : FrameId) : FrameTree → Option FrameTree
  | FrameTree.node d cs =>
    if d.id = fid then some (FrameTree.node d cs) else findSubtreeList fid cs
def findSubtreeList (fid : FrameId) : List FrameTree → Option FrameTree
  | [] => none
  | c :: cs =>
    match findSubtree fid c with
    | some s => some s
    | none => findSubtreeList fid cs
end

def findFrameData (fid : FrameId) (t : FrameTree) : Option FrameData :=
  (findSubtree fid t).map FrameTree.data

mutual
/-- Apply `g` to the data of every node with the given id. -/
def updateFrame (fid : FrameId) (g : FrameData → FrameData) : FrameTree → FrameTree
  | FrameTree.node d cs =>
    FrameTree.node (if d.id = fid then g d else d) (updateFrameList fid g cs)
def updateFrameList (fid : FrameId) (g : FrameData → FrameData) :
    List FrameTree → List FrameTree
  | [] => []
  | c :: cs => updateFrame fid g c :: updateFrameList fid g cs
end

mutual
/-- Apply `g` to every maximal subtree rooted at the given id. -/
def updateSubtree (fid : FrameId) (g : FrameTree → FrameTree) : FrameTree → FrameTree
  | FrameTree.node d cs =>
    if d.id = fid then g (FrameTree.node d cs)
    else FrameTree.node d (updateSubtreeList fid g cs)
def updateSubtreeList (fid : FrameId) (g : FrameTree → FrameTree) :
    List FrameTree → List FrameTree
  | [] => []
  | c :: cs => updateSubtree fid g c :: updateSubtreeList fid g cs
end

mutual
/-- Drop every child subtree rooted at the given id
(`_removeFramesRecursively` seen from the surviving tree). -/
def removeSubtrees (fid : FrameId) : FrameTree → FrameTree
  | FrameTree.node d cs => FrameTree.node d (removeSubtreesList fid cs)
def removeSubtreesList (fid : FrameId) : List FrameTree → List FrameTree
  | [] => []
  | c :: cs =>
    if c.data.id = fid then removeSubtreesList fid cs
    else removeSubtrees fid c :: removeSubtreesList fid cs
end

mutual
/-- `FrameManager.frameAttached`'s child branch, adding the new frame at
the end of the parent's child set. -/
def insertChild (pid : FrameId) (c : FrameTree) : FrameTree → FrameTree
  | FrameTree.node d cs =>
    FrameTree.node d (insertChildList pid c cs ++ (if d.id = pid then [c] else []))
def insertChildList (pid : FrameId) (c : FrameTree) : List FrameTree → List FrameTree
  | [] => []
  | x :: cs => insertChild pid c x :: insertChildList pid c cs
end

/-- `isNetworkIdle` of one recalculation step (frames.ts:566-572), computed
over the already-recalculated children `cs1`: the frame is self-idle and
every child has `networkidle` fired. -/
def recalcIsIdle (d : FrameData) (cs1 : List FrameTree) : Bool :=
  d.firedNetworkIdleSelf &&
    cs1.all (fun c => decide (LifecycleEvent.networkidle ∈ c.data.fired))

/-- The fired set after one node's recalculation step (frames.ts:573-584):
fire `networkidle` when `isNetworkIdle` holds, and remove it — for every
frame other than `frameThatAllowsRemovingNetworkIdle` — when it no longer
holds. -/
def recalcFired (allowed : Option FrameId) (d : FrameData) (cs1 : List FrameTree) :
    Finset LifecycleEvent :=
  let isIdle := recalcIsIdle d cs1
  let fired1 :=
    if isIdle && !(decide (LifecycleEvent.networkidle ∈ d.fired)) then
      insert LifecycleEvent.networkidle d.fired
    else d.fired
  if decide (allowed ≠ some d.id) && decide (LifecycleEvent.networkidle ∈ fired1) &&
      !isIdle then
    fired1.erase LifecycleEvent.networkidle
  else fired1

mutual
/-- `Frame._recalculateNetworkIdle` (frames.ts:565-585): children first,
then this node's fired set per `recalcFired`. -/
def recalcTree (allowed : Option FrameId) : FrameTree → FrameTree
  | FrameTree.node d cs =>
    let cs1 := recalcTreeList allowed cs
    FrameTree.node { d with fired := recalcFired allowed d cs1 } cs1
def recalcTreeList (allowed : Option FrameId) : List FrameTree → List FrameTree
  | [] => []
  | c :: cs => recalcTree allowed c :: recalcTreeList allowed cs
end

/-- `Frame._onLifecycleEvent` (frames.ts:488-496) applied at the tree root:
idempotent insert, then a whole-tree recalculation. -/
def onLifecycleEvent (fid : FrameId) (ev : LifecycleEvent) (t : FrameTree) : FrameTree :=
  match findFrameData fid t with
  | none => t
  | some f =>
    if ev ∈ f.fired then t
    else recalcTree none (updateFrame fid (fun d => { d with fired := insert ev d.fired }) t)

/-- `Frame._onClearLifecycle` (frames.ts:498-509) for frame `fid`, applied
at the tree root: per-frame clear, recalculation with the clearing frame as
`frameThatAllowsRemovingNetworkIdle`, then `_onLifecycleEvent('commit')`. -/
def onClearLifecycle (fid : FrameId) (t : FrameTree) : FrameTree :=
  onLifecycleEvent fid LifecycleEvent.commit
    (recalcTree (some fid) (updateFrame fid clearLifecycleData t))

mutual
/-- The frames removed by `_removeFramesRecursively` (frames.ts:340-346),
in map-deletion order: children fully removed before the frame itself. -/
def removalOrder : FrameTree → List FrameId
  | FrameTree.node d cs => removalOrderList cs ++ [d.id]
def removalOrderList : List FrameTree → List FrameId
  | [] => []
  | c :: cs => removalOrder c ++ removalOrderList cs
end

mutual
/-- The nodes of a tree in the same (post-)order as `removalOrder`. -/
def postNodes : FrameTree → List FrameData
  | FrameTree.node d cs => postNodesList cs ++ [d]
def postNodesList : List FrameTree → List FrameData
  | [] => []
  | c :: cs => postNodes c ++ postNodesList cs
end

mutual
/-- The per-frame records after `_onDetached` ran on each removed frame, in
removal order. -/
def removalRecords : FrameTree → List FrameData
  | FrameTree.node d cs => removalRecordsList cs ++ [onDetachedData d]
def removalRecordsList : List FrameTree → List FrameData
  | [] => []
  | c :: cs => removalRecords c ++ removalRecordsList cs
end

/-! ## The frame manager and its event application

`FrameManager` (frames.ts:97-434) owns the frame-identity map `_frames` and
the main frame.  `main` holds the main-frame object (which survives in the
`_mainFrame` field even after a root detach), `mainLive` whether it is
present in `_frames`.  For child detach, tree removal and map removal
coincide; after a root detach the map is empty (`mainLive = false`) while
the stale object remains for id-reassignment on a later attach. -/

structure ManagerState where
  main : Option FrameTree
  mainLive : Bool

def initialManagerState : ManagerState := ⟨none, false⟩

/-- `this._frames.get(frameId)`. -/
def lookupFrame (st : ManagerState) (fid : FrameId) : Option FrameTree :=
  match st.main with
  | some t => if st.mainLive then findSubtree fid t else none
  | none => none

/-- The ids present in the `_frames` map. -/
def liveFrameIds (st : ManagerState) : List FrameId :=
  match st.main with
  | some t => if st.mainLive then treeIds t else []
  | none => []

/-- Apply `g` to the main tree, if any. -/
def mapMain (st : ManagerState) (g : FrameTree → FrameTree) : ManagerState :=
  match st.main with
  | some t => { main := some (g t), mainLive := st.mainLive }
  | none => st

/-- `frameAttached`'s main-frame branch (frames.ts:144-154): reassign the
existing main frame's id (cross-process navigation keeps identity,
children and all other state untouched) or create the main frame. -/
def frameAttachedAsMain (st : ManagerState) (fid : FrameId) : ManagerState :=
  match st.main with
  | some (FrameTree.node d cs) =>
    { main := some (FrameTree.node { d with id := fid } cs), mainLive := true }
  | none => { main := some (FrameTree.node (newFrame fid) []), mainLive := true }

/-- `FrameManager.frameAttached` (frames.ts:142-162).  A missing parent
(`this._frames.get(parentFrameId)!` is undefined) falls into the main-frame
branch; the child branch asserts the id is fresh, so an id collision leaves
the state unchanged (the assertion throws before any mutation). -/
def frameAttachedFull (st : ManagerState) (fid : FrameId) (parentId : Option FrameId) :
    ManagerState :=
  match parentId with
  | some pid =>
    match lookupFrame st pid with
    | some _ =>
      if (lookupFrame st fid).isSome then st
      else mapMain st (insertChild pid (FrameTree.node (newFrame fid) []))
    | none => frameAttachedAsMain st fid
  | none => frameAttachedAsMain st fid

/-- `FrameManager.frameDetached` (frames.ts:279-285) with its removal
artifacts: the new state, the map-deletion order, and the removed frames'
post-`_onDetached` records.  After removal,
`this._page.mainFrame()._recalculateNetworkIdle()` runs; when the main
frame itself was detached, every child removed itself from the stale main
object's child set, and the recalculation runs on that stale object. -/
def frameDetachedFull (st : ManagerState) (fid : FrameId) :
    ManagerState × List FrameId × List FrameData :=
  match lookupFrame st fid with
  | none => (st, [], [])
  | some s =>
    match st.main with
    | none => (st, [], [])
    | some t =>
      if t.data.id = fid then
        ({ main := some (recalcTree none (FrameTree.node (onDetachedData t.data) [])),
           mainLive := false }, removalOrder s, removalRecords s)
      else
        ({ main := some (recalcTree none (removeSubtrees fid t)),
           mainLive := st.mainLive }, removalOrder s, removalRecords s)

/-- The committing frame's non-document fields set by frames.ts:208-209 and
the `setPendingDocument(undefined)` of frames.ts:230. -/
def commitNodeData (url name : String) (cur : DocumentInfo) (d : FrameData) : FrameData :=
  { d with url := url, name := name, currentDocument := cur, pendingDocument := none }

/-- `FrameManager.frameCommittedNewDocumentNavigation` (frames.ts:204-245):
remove the child subtree, set url/name and the document pair, run
`_onClearLifecycle`, and finally restore `keepPending`.  (`clearWebSockets`,
logging and the emitted events have no frame-tree effect; the `initial`
flag only controls logging/page notification.) -/
def frameCommittedNewDocumentNavigationFull (st : ManagerState) (fid : FrameId)
    (url name docId : String) : ManagerState :=
  match lookupFrame st fid with
  | none => st
  | some s =>
    let pair := commitDocPair docId s.data.pendingDocument
    mapMain st (fun t =>
      let t1 := updateSubtree fid
        (fun sub => FrameTree.node (commitNodeData url name pair.1 sub.data) []) t
      let t2 := onClearLifecycle fid t1
      updateFrame fid (fun d => { d with pendingDocument := pair.2 }) t2)

inductive PWEvent where
  | frameAttached (frameId : FrameId) (parentFrameId : Option FrameId)
  | frameDetached (frameId : FrameId)
  | frameRequestedNavigation (frameId : FrameId) (documentId : Option String)
  | frameCommittedNewDocumentNavigation (frameId url name documentId : String)
  | frameCommittedSameDocumentNavigation (frameId url : String)
  | frameAbortedNavigation (frameId : FrameId) (documentId : Option String)
  | frameLifecycleEvent (frameId : FrameId) (event : RegularLifecycleEvent)
  | requestStarted (r : Request)
  | requestFinished (r : Request)
  | requestFailed (r : Request)
  | networkIdleTimerFired (frameId : FrameId)

/-- Apply a per-frame data transform through the manager, guarded by the
`_frames` lookup the corresponding manager method performs. -/
def updateLiveFrame (st : ManagerState) (fid : FrameId) (g : FrameData → FrameData) :
    ManagerState :=
  match lookupFrame st fid with
  | none => st
  | some _ => mapMain st (updateFrame fid g)

/-- One remote notification applied to the manager state
(frames.ts:142-366 and the network-idle timer callback 1609-1612). -/
def applyEvent (st : ManagerState) : PWEvent → ManagerState
  | PWEvent.frameAttached fid parentId => frameAttachedFull st fid parentId
  | PWEvent.frameDetached fid => (frameDetachedFull st fid).1
  | PWEvent.frameRequestedNavigation fid documentId =>
    updateLiveFrame st fid (frameRequestedNavigationData documentId)
  | PWEvent.frameCommittedNewDocumentNavigation fid url name docId =>
    frameCommittedNewDocumentNavigationFull st fid url name docId
  | PWEvent.frameCommittedSameDocumentNavigation fid url =>
    updateLiveFrame st fid (frameCommittedSameDocumentNavigationData url)
  | PWEvent.frameAbortedNavigation fid documentId =>
    updateLiveFrame st fid (frameAbortedNavigationData documentId)
  | PWEvent.frameLifecycleEvent fid ev =>
    match lookupFrame st fid with
    | none => st
    | some _ => mapMain st (onLifecycleEvent fid ev.toEvent)
  | PWEvent.requestStarted r => updateLiveFrame st r.frameId (requestStartedData r)
  | PWEvent.requestFinished r => updateLiveFrame st r.frameId (inflightRequestFinishedData r)
  | PWEvent.requestFailed r => updateLiveFrame st r.frameId (requestFailedData r)
  | PWEvent.networkIdleTimerFired fid =>
    match lookupFrame st fid with
    | none => st
    | some s =>
      if s.data.timerArmed then
        mapMain st (fun t => recalcTree none
          (updateFrame fid (fun d => { d with firedNetworkIdleSelf := true }) t))
      else st

def applyEvents (st : ManagerState) (evs : List PWEvent) : ManagerState :=
  evs.foldl applyEvent st


/-! ### Bridges between the list companions and standard list combinators -/

theorem findSubtreeList_eq (fid : FrameId) :
    ∀ cs : List FrameTree, findSubtreeList fid cs = cs.findSome? (findSubtree fid) := by
  intro cs
  induction cs with
  | nil => rfl
  | cons c cs ih =>
    rw [List.findSome?_cons]
    simp only [findSubtreeList]
    cases findSubtree fid c
    · exact ih
    · rfl

theorem updateFrameList_eq (fid : FrameId) (g : FrameData → FrameData) :
    ∀ cs : List FrameTree, updateFrameList fid g cs = cs.map (updateFrame fid g) := by
  intro cs
  induction cs with
  | nil => rfl
  | cons c cs ih => simp only [updateFrameList, List.map_cons, ih]

theorem updateSubtreeList_eq (fid : FrameId) (g : FrameTree → FrameTree) :
    ∀ cs : List FrameTree, updateSubtreeList fid g cs = cs.map (updateSubtree fid g) := by
  intro cs
  induction cs with
  | nil => rfl
  | cons c cs ih => simp only [updateSubtreeList, List.map_cons, ih]

theorem recalcTreeList_eq (a : Option FrameId) :
    ∀ cs : List FrameTree, recalcTreeList a cs = cs.map (recalcTree a) := by
  intro cs
  induction cs with
  | nil => rfl
  | cons c cs ih => simp only [recalcTreeList, List.map_cons, ih]

/-! ## Tree lemmas: locating a frame through the tree transforms -/

theorem findSubtree_node_self {fid : FrameId} {d : FrameData} {cs : List FrameTree}
    (h : d.id = fid) : findSubtree fid (FrameTree.node d cs) = some (FrameTree.node d cs) := by
  simp [findSubtree, h]

theorem findSubtree_node_ne {fid : FrameId} {d : FrameData} {cs : List FrameTree}
    (h : d.id ≠ fid) :
    findSubtree fid (FrameTree.node d cs) = cs.findSome? (findSubtree fid) := by
  simp only [findSubtree, if_neg h]
  exact findSubtreeList_eq fid cs

theorem findSome?_data_commute {ν : Type _} (fid : FrameId) (T : FrameTree → FrameTree)
    (V W : FrameData → ν) :
    ∀ cs : List FrameTree,
    (∀ c ∈ cs, (findFrameData fid (T c)).map V = (findFrameData fid c).map W) →
    ((cs.map T).findSome? (findSubtree fid)).map (fun s => V s.data) =
      (cs.findSome? (findSubtree fid)).map (fun s => W s.data) := by
  intro cs
  induction cs with
  | nil => intro _; simp
  | cons c cs ih =>
    intro h
    have hc := h c (List.mem_cons_self c cs)
    simp only [List.map_cons, List.findSome?_cons]
    rcases hfc : findSubtree fid c with _ | s
    · have hnone : findFrameData fid c = none := by simp [findFrameData, hfc]
      rw [hnone] at hc
      simp only [Option.map_none'] at hc
      have hTc : findSubtree fid (T c) = none := by
        rcases hTc : findSubtree fid (T c) with _ | s2
        · rfl
        · rw [findFrameData, hTc] at hc
          simp at hc
      simp only [hTc, hfc]
      exact ih (fun c2 hc2 => h c2 (List.mem_cons_of_mem c hc2))
    · have hd : findFrameData fid c = some s.data := by simp [findFrameData, hfc]
      rw [hd] at hc
      simp only [Option.map_some'] at hc
      rcases hTc : findSubtree fid (T c) with _ | s2
      · rw [findFrameData, hTc] at hc
        simp at hc
      · rw [findFrameData, hTc] at hc
        simp only [Option.map_some'] at hc
        simp only [hTc, hfc, Option.map_some']
        rw [hc]

/-- The workhorse: a tree transform `T` that preserves node ids, maps over
the children of non-matching nodes, and rewrites the data of matching roots
from view `W` to view `V`, commutes with locating a frame. -/
theorem findData_commute {ν : Type _} (fid : FrameId) (T : FrameTree → FrameTree)
    (V W : FrameData → ν)
    (hid : ∀ t, (T t).data.id = t.data.id)
    (hch : ∀ t, t.data.id ≠ fid → (T t).children = t.children.map T)
    (hv : ∀ t, t.data.id = fid → V ((T t).data) = W t.data) :
    ∀ t, (findFrameData fid (T t)).map V = (findFrameData fid t).map W := by
  refine FrameTree.strongInd ?_
  intro d cs ih
  rcases hT : T (FrameTree.node d cs) with ⟨d2, cs2⟩
  have hid2 : d2.id = d.id := by
    have := hid (FrameTree.node d cs)
    rw [hT] at this
    exact this
  by_cases hroot : d.id = fid
  · have h1 : findSubtree fid (FrameTree.node d2 cs2) = some (FrameTree.node d2 cs2) :=
      findSubtree_node_self (by rw [hid2]; exact hroot)
    have h2 : findSubtree fid (FrameTree.node d cs) = some (FrameTree.node d cs) :=
      findSubtree_node_self hroot
    have hv2 : V d2 = W d := by
      have := hv (FrameTree.node d cs) hroot
      rw [hT] at this
      exact this
    simp [findFrameData, h1, h2, FrameTree.data, hv2]
  · have h1 : findSubtree fid (FrameTree.node d2 cs2) = cs2.findSome? (findSubtree fid) :=
      findSubtree_node_ne (by rw [hid2]; exact hroot)
    have h2 : findSubtree fid (FrameTree.node d cs) = cs.findSome? (findSubtree fid) :=
      findSubtree_node_ne hroot
    have hcs2 : cs2 = cs.map T := by
      have := hch (FrameTree.node d cs) hroot
      rw [hT] at this
      exact this
    have hlist := findSome?_data_commute fid T V W cs ih
    rw [findFrameData, findFrameData, h1, h2, hcs2]
    have e1 : ∀ (o : Option FrameTree), (o.map FrameTree.data).map V =
        o.map (fun s => V s.data) := by
      intro o
      cases o <;> rfl
    have e2 : ∀ (o : Option FrameTree), (o.map FrameTree.data).map W =
        o.map (fun s => W s.data) := by
      intro o
      cases o <;> rfl
    rw [e1, e2]
    exact hlist

theorem updateFrame_eq (fid : FrameId) (g : FrameData → FrameData) (d : FrameData)
    (cs : List FrameTree) :
    updateFrame fid g (FrameTree.node d cs) =
      FrameTree.node (if d.id = fid then g d else d) (cs.map (updateFrame fid g)) := by
  simp [updateFrame, updateFrameList_eq]

theorem updateSubtree_eq_pos (fid : FrameId) (g : FrameTree → FrameTree) (d : FrameData)
    (cs : List FrameTree) (h : d.id = fid) :
    updateSubtree fid g (FrameTree.node d cs) = g (FrameTree.node d cs) := by
  simp [updateSubtree, h]

theorem updateSubtree_eq_neg (fid : FrameId) (g : FrameTree → FrameTree) (d : FrameData)
    (cs : List FrameTree) (h : d.id ≠ fid) :
    updateSubtree fid g (FrameTree.node d cs) =
      FrameTree.node d (cs.map (updateSubtree fid g)) := by
  simp [updateSubtree, h, updateSubtreeList_eq]

theorem findFrameData_updateFrame (fid : FrameId) (g : FrameData → FrameData)
    (hgid : ∀ d, (g d).id = d.id) (t : FrameTree) :
    findFrameData fid (updateFrame fid g t) = (findFrameData fid t).map g := by
  have h := findData_commute fid (updateFrame fid g) id g
    (fun t2 => by
      rcases t2 with ⟨d, cs⟩
      rw [updateFrame_eq]
      show (if d.id = fid then g d else d).id = d.id
      split
      · exact hgid d
      · rfl)
    (fun t2 _ => by
      rcases t2 with ⟨d, cs⟩
      rw [updateFrame_eq]
      rfl)
    (fun t2 ht2 => by
      rcases t2 with ⟨d, cs⟩
      have ht3 : d.id = fid := ht2
      rw [updateFrame_eq]
      show (if d.id = fid then g d else d) = g d
      rw [if_pos ht3]) t
  rw [Option.map_id] at h
  exact h

/-- Locate a frame through `updateSubtree` when the subtree transform
rewrites the matched root's data by `h0`. -/
theorem findFrameData_updateSubtree (fid : FrameId) (g : FrameTree → FrameTree)
    (h0 : FrameData → FrameData)
    (hg : ∀ s, s.data.id = fid → (g s).data = h0 s.data)
    (h0id : ∀ d, (h0 d).id = d.id) (t : FrameTree) :
    findFrameData fid (updateSubtree fid g t) = (findFrameData fid t).map h0 := by
  have h := findData_commute fid (updateSubtree fid g) id h0
    (fun t2 => by
      rcases t2 with ⟨d, cs⟩
      by_cases hd : d.id = fid
      · have hd2 : (FrameTree.node d cs).data.id = fid := hd
        rw [updateSubtree_eq_pos fid g d cs hd]
        show (g (FrameTree.node d cs)).data.id = d.id
        rw [hg _ hd2]
        exact h0id d
      · rw [updateSubtree_eq_neg fid g d cs hd]
        rfl)
    (fun t2 ht2 => by
      rcases t2 with ⟨d, cs⟩
      have hd : d.id ≠ fid := ht2
      rw [updateSubtree_eq_neg fid g d cs hd]
      rfl)
    (fun t2 ht2 => by
      rcases t2 with ⟨d, cs⟩
      have hd : d.id = fid := ht2
      show id (updateSubtree fid g (FrameTree.node d cs)).data = h0 d
      rw [updateSubtree_eq_pos fid g d cs hd]
      exact hg _ ht2) t
  rw [Option.map_id] at h
  exact h

theorem recalcTree_eq (a : Option FrameId) (d : FrameData) (cs : List FrameTree) :
    recalcTree a (FrameTree.node d cs) =
      FrameTree.node { d with fired := recalcFired a d (cs.map (recalcTree a)) }
        (cs.map (recalcTree a)) := by
  simp [recalcTree, recalcTreeList_eq]

/-- `recalcFired` preserves `commit` membership: only `networkidle` is ever
inserted or erased. -/
theorem commit_mem_recalcFired (a : Option FrameId) (d : FrameData) (cs1 : List FrameTree) :
    (LifecycleEvent.commit ∈ recalcFired a d cs1) ↔ LifecycleEvent.commit ∈ d.fired := by
  unfold recalcFired
  dsimp only
  split
  · split
    · simp [Finset.mem_erase, Finset.mem_insert]
    · simp [Finset.mem_erase]
  · split
    · simp [Finset.mem_insert]
    · simp

/-- `recalcTree` rewrites only the `fired` set of each node. -/
theorem recalcTree_data_fired_only (a : Option FrameId) (d : FrameData) (cs : List FrameTree) :
    ∃ s, (recalcTree a (FrameTree.node d cs)).data = { d with fired := s } := by
  rw [recalcTree_eq]
  exact ⟨_, rfl⟩

theorem recalcTree_children (a : Option FrameId) (d : FrameData) (cs : List FrameTree) :
    (recalcTree a (FrameTree.node d cs)).children = cs.map (recalcTree a) := by
  rw [recalcTree_eq]
  rfl

theorem recalcTree_commitMem (a : Option FrameId) (d : FrameData) (cs : List FrameTree) :
    (LifecycleEvent.commit ∈ (recalcTree a (FrameTree.node d cs)).data.fired) ↔
      LifecycleEvent.commit ∈ d.fired := by
  rw [recalcTree_eq]
  exact commit_mem_recalcFired a d (cs.map (recalcTree a))

/-! ## C2: `frameRequestedNavigation` with an undefined documentId -/

theorem frameRequestedNavigationData_id (documentId : Option String) (f : FrameData) :
    (frameRequestedNavigationData documentId f).id = f.id := by
  unfold frameRequestedNavigationData
  rcases hfp : f.pendingDocument with _ | p
  · simp only [hfp]
  · simp only [hfp]
    split
    · rfl
    · rfl

/-- The pending document of a frame as seen through the manager state. -/
def pendingOf (st : ManagerState) (fid : FrameId) : Option (Option DocumentInfo) :=
  match st.main with
  | some t => (findFrameData fid t).map FrameData.pendingDocument
  | none => none

def c2Req : Request := ⟨1, "m", some "d1", false⟩

def c2Frame : FrameData :=
  { newFrame "m" with pendingDocument := some ⟨some "d1", some c2Req⟩, inflight := [c2Req] }

def c2State : ManagerState := ⟨some (FrameTree.node c2Frame []), true⟩

/-- **C2 counterexample**.  A frame whose pendingDocument has the known
documentId "d1" (with its associated request) receives
`frameRequestedNavigation` with `documentId === undefined`: the claim says
the existing pendingDocument is left unchanged, but the code replaces it
with `{ documentId: undefined, request: undefined }` — the no-clobber guard
fires only when the incoming documentId strictly equals the pending one. -/
theorem frameRequestedNavigation_clobbers_counterexample :
    pendingOf c2State "m" = some (some ⟨some "d1", some c2Req⟩) ∧
    pendingOf (applyEvent c2State (PWEvent.frameRequestedNavigation "m" none)) "m" =
      some (some ⟨none, none⟩) := by
  decide

/-- **C2 amended**.  For every frame with a pendingDocument whose
documentId is known (`some d`), a subsequent `frameRequestedNavigation`
with an undefined documentId does not leave it unchanged: the guard
`pending.documentId === documentId` fails, so the pendingDocument is
replaced by `{ documentId: undefined, request: undefined }`. -/
theorem frameRequestedNavigation_undefined_replaces
    (st : ManagerState) (t : FrameTree) (fid : FrameId) (f : FrameData) (p : DocumentInfo)
    (d : String)
    (hmain : st.main = some t) (hlive : st.mainLive = true)
    (hf : findFrameData fid t = some f)
    (hp : f.pendingDocument = some p) (hd : p.documentId = some d) :
    ∃ t1, (applyEvent st (PWEvent.frameRequestedNavigation fid none)).main = some t1 ∧
      findFrameData fid t1 = some (frameRequestedNavigationData none f) ∧
      (frameRequestedNavigationData none f).pendingDocument = some ⟨none, none⟩ := by
  obtain ⟨s, hs⟩ : ∃ s, findSubtree fid t = some s := by
    rcases hs : findSubtree fid t with _ | s
    · rw [findFrameData, hs] at hf
      cases hf
    · exact ⟨s, rfl⟩
  have hlook : lookupFrame st fid = some s := by
    unfold lookupFrame
    rw [hmain, hlive]
    simpa using hs
  refine ⟨updateFrame fid (frameRequestedNavigationData none) t, ?_, ?_, ?_⟩
  · simp only [applyEvent, updateLiveFrame, hlook, mapMain, hmain]
  · rw [findFrameData_updateFrame fid _ (frameRequestedNavigationData_id none) t, hf]
    rfl
  · unfold frameRequestedNavigationData
    simp only [hp]
    rw [if_neg (by rw [hd]; exact fun h => by cases h)]

theorem frameRequestedNavigation_undefined_replaces_witness :
    ∃ t1, (applyEvent c2State (PWEvent.frameRequestedNavigation "m" none)).main = some t1 ∧
      findFrameData "m" t1 = some (frameRequestedNavigationData none c2Frame) ∧
      (frameRequestedNavigationData none c2Frame).pendingDocument = some ⟨none, none⟩ :=
  frameRequestedNavigation_undefined_replaces c2State (FrameTree.node c2Frame []) "m" c2Frame
    ⟨some "d1", some c2Req⟩ "d1" rfl rfl (by decide) rfl rfl

/-! ## C4: committing while a different document is pending -/

/-- The document bookkeeping of a frame: `(currentDocument, pendingDocument)`. -/
def docView (d : FrameData) : DocumentInfo × Option DocumentInfo :=
  (d.currentDocument, d.pendingDocument)

def commitMemB (d : FrameData) : Bool := decide (LifecycleEvent.commit ∈ d.fired)

/-- Document view paired with `commit` membership, tracked through the
commit pipeline. -/
def dcView (d : FrameData) : (DocumentInfo × Option DocumentInfo) × Bool :=
  (docView d, commitMemB d)

theorem docView_clearLifecycleData (f : FrameData) :
    docView (clearLifecycleData f) = docView f := by
  unfold clearLifecycleData stopNetworkIdleTimer startNetworkIdleTimer
  dsimp only
  split
  · split
    · rfl
    · rfl
  · rfl

theorem commitMemB_clearLifecycleData (f : FrameData) :
    commitMemB (clearLifecycleData f) = false := by
  unfold clearLifecycleData stopNetworkIdleTimer startNetworkIdleTimer commitMemB
  dsimp only
  split
  · split
    · simp
    · simp
  · simp

theorem clearLifecycleData_id (f : FrameData) : (clearLifecycleData f).id = f.id := by
  unfold clearLifecycleData stopNetworkIdleTimer startNetworkIdleTimer
  dsimp only
  split
  · split
    · rfl
    · rfl
  · rfl

/-- Any view is preserved through `updateFrame` when the node transform
preserves it (the target id may differ from the queried one). -/
theorem findView_updateFrame_pres {ν : Type _} (fid fid2 : FrameId)
    (g : FrameData → FrameData) (V : FrameData → ν)
    (hgid : ∀ d, (g d).id = d.id) (hgV : ∀ d, V (g d) = V d) (t : FrameTree) :
    (findFrameData fid (updateFrame fid2 g t)).map V = (findFrameData fid t).map V := by
  refine findData_commute fid (updateFrame fid2 g) V V
    (fun t2 => by
      rcases t2 with ⟨d, cs⟩
      rw [updateFrame_eq]
      show (if d.id = fid2 then g d else d).id = d.id
      split
      · exact hgid d
      · rfl)
    (fun t2 _ => by
      rcases t2 with ⟨d, cs⟩
      rw [updateFrame_eq]
      rfl)
    (fun t2 _ => by
      rcases t2 with ⟨d, cs⟩
      rw [updateFrame_eq]
      show V (if d.id = fid2 then g d else d) = V d
      split
      · exact hgV d
      · rfl) t

/-- `dcView` is preserved through any recalculation: only the `networkidle`
membership of `fired` changes. -/
theorem findDcView_recalc (fid : FrameId) (a : Option FrameId) (t : FrameTree) :
    (findFrameData fid (recalcTree a t)).map dcView = (findFrameData fid t).map dcView := by
  refine findData_commute fid (recalcTree a) dcView dcView
    (fun t2 => by
      rcases t2 with ⟨d, cs⟩
      obtain ⟨s, hs⟩ := recalcTree_data_fired_only a d cs
      rw [hs]
      rfl)
    (fun t2 _ => by
      rcases t2 with ⟨d, cs⟩
      rw [recalcTree_children]
      rfl)
    (fun t2 _ => by
      rcases t2 with ⟨d, cs⟩
      obtain ⟨s, hs⟩ := recalcTree_data_fired_only a d cs
      have hmem := recalcTree_commitMem a d cs
      rw [hs] at hmem
      have hmem2 : (LifecycleEvent.commit ∈ s) ↔ LifecycleEvent.commit ∈ d.fired := by
        simpa using hmem
      unfold dcView commitMemB docView
      rw [hs]
      simp only
      rw [decide_eq_decide.mpr hmem2]
      rfl) t

/-- `docView` alone is likewise preserved through any recalculation. -/
theorem findDocView_recalc (fid : FrameId) (a : Option FrameId) (t : FrameTree) :
    (findFrameData fid (recalcTree a t)).map docView = (findFrameData fid t).map docView := by
  refine findData_commute fid (recalcTree a) docView docView
    (fun t2 => by
      rcases t2 with ⟨d, cs⟩
      obtain ⟨s, hs⟩ := recalcTree_data_fired_only a d cs
      rw [hs]
      rfl)
    (fun t2 _ => by
      rcases t2 with ⟨d, cs⟩
      rw [recalcTree_children]
      rfl)
    (fun t2 _ => by
      rcases t2 with ⟨d, cs⟩
      obtain ⟨s, hs⟩ := recalcTree_data_fired_only a d cs
      rw [hs]
      rfl) t

/-- **C4**.  When `frameCommittedNewDocumentNavigation` arrives while the
frame has a pendingDocument with a known, different `documentId`, the new
`currentDocument` is `{ documentId: <incoming>, request: undefined }` and
the original pendingDocument is restored (not discarded) — it survives
`_onClearLifecycle` and is reinstated by the final
`setPendingDocument(keepPending)`. -/
theorem frameCommit_racing_keeps_pending
    (st : ManagerState) (t : FrameTree) (fid : FrameId) (f : FrameData) (p : DocumentInfo)
    (d0 docId url name : String)
    (hmain : st.main = some t) (hlive : st.mainLive = true)
    (hf : findFrameData fid t = some f)
    (hp : f.pendingDocument = some p) (hpd : p.documentId = some d0) (hne : d0 ≠ docId) :
    ∃ t3,
      (applyEvent st (PWEvent.frameCommittedNewDocumentNavigation fid url name docId)).main
        = some t3 ∧
      (findFrameData fid t3).map docView = some (⟨some docId, none⟩, some p) := by
  obtain ⟨s, hs⟩ : ∃ s, findSubtree fid t = some s := by
    rcases hs : findSubtree fid t with _ | s
    · rw [findFrameData, hs] at hf
      cases hf
    · exact ⟨s, rfl⟩
  have hsdata : s.data = f := by
    rw [findFrameData, hs] at hf
    simpa using hf
  have hlook : lookupFrame st fid = some s := by
    unfold lookupFrame
    rw [hmain, hlive]
    simpa using hs
  have hpair : commitDocPair docId s.data.pendingDocument = (⟨some docId, none⟩, some p) := by
    rw [hsdata, hp]
    unfold commitDocPair
    dsimp only
    rw [if_neg (show ¬p.documentId = none by rw [hpd]; exact fun h => by cases h)]
    rw [if_neg (show ¬p.documentId = some docId by
      rw [hpd]; intro h; exact hne (Option.some.inj h))]
  -- name the pipeline stages
  set g0 : FrameTree → FrameTree :=
    fun sub => FrameTree.node (commitNodeData url name ⟨some docId, none⟩ sub.data) [] with hg0
  set insC : FrameData → FrameData :=
    fun d => { d with fired := insert LifecycleEvent.commit d.fired } with hinsC
  set g3 : FrameData → FrameData :=
    fun d => { d with pendingDocument := some p } with hg3
  set t1 := updateSubtree fid g0 t with ht1
  set tA := updateFrame fid clearLifecycleData t1 with htA
  set tB := recalcTree (some fid) tA with htB
  -- stage 1: the committed node
  have hfind1 : findFrameData fid t1 =
      some (commitNodeData url name ⟨some docId, none⟩ f) := by
    rw [ht1, findFrameData_updateSubtree fid g0 (commitNodeData url name ⟨some docId, none⟩)
      (fun s2 _ => rfl) (fun d => rfl) t, hf]
    rfl
  -- stage 2: cleared lifecycle
  have hfindA : findFrameData fid tA =
      some (clearLifecycleData (commitNodeData url name ⟨some docId, none⟩ f)) := by
    rw [htA, findFrameData_updateFrame fid clearLifecycleData clearLifecycleData_id t1, hfind1]
    rfl
  have hdcA : (findFrameData fid tA).map dcView =
      some ((⟨some docId, none⟩, none), false) := by
    rw [hfindA, Option.map_some']
    unfold dcView
    rw [docView_clearLifecycleData, commitMemB_clearLifecycleData]
    rfl
  -- stage 3: recalc with the committing frame allowed to lose networkidle
  have hdcB : (findFrameData fid tB).map dcView =
      some ((⟨some docId, none⟩, none), false) := by
    rw [htB, findDcView_recalc fid (some fid) tA]
    exact hdcA
  obtain ⟨f2, hf2, hf2v⟩ : ∃ f2, findFrameData fid tB = some f2 ∧
      dcView f2 = ((⟨some docId, none⟩, none), false) := by
    rcases hfb : findFrameData fid tB with _ | f2
    · rw [hfb] at hdcB
      cases hdcB
    · rw [hfb] at hdcB
      exact ⟨f2, rfl, by simpa using hdcB⟩
  have hf2commit : LifecycleEvent.commit ∉ f2.fired := by
    have : commitMemB f2 = false := congrArg Prod.snd hf2v
    simpa [commitMemB] using this
  have hf2doc : docView f2 = (⟨some docId, none⟩, none) := congrArg Prod.fst hf2v
  -- stage 4: the commit lifecycle event takes the insert-and-recalc branch
  have ht2 : onLifecycleEvent fid LifecycleEvent.commit tB =
      recalcTree none (updateFrame fid insC tB) := by
    unfold onLifecycleEvent
    rw [hf2]
    dsimp only
    rw [if_neg hf2commit]
  have hdoc2 : (findFrameData fid (onLifecycleEvent fid LifecycleEvent.commit tB)).map docView =
      some (⟨some docId, none⟩, none) := by
    rw [ht2, findDocView_recalc fid none,
      findView_updateFrame_pres fid fid insC docView (fun d => rfl) (fun d => rfl) tB, hf2]
    simp [hf2doc]
  obtain ⟨f4, hf4, hf4v⟩ : ∃ f4,
      findFrameData fid (onLifecycleEvent fid LifecycleEvent.commit tB) = some f4 ∧
      docView f4 = (⟨some docId, none⟩, none) := by
    rcases hfb : findFrameData fid (onLifecycleEvent fid LifecycleEvent.commit tB) with _ | f4
    · rw [hfb] at hdoc2
      cases hdoc2
    · rw [hfb] at hdoc2
      exact ⟨f4, rfl, by simpa using hdoc2⟩
  -- assemble
  refine ⟨updateFrame fid g3 (onLifecycleEvent fid LifecycleEvent.commit tB), ?_, ?_⟩
  · simp only [applyEvent, frameCommittedNewDocumentNavigationFull, hlook, mapMain, hmain,
      hpair, onClearLifecycle]
  · rw [findFrameData_updateFrame fid g3 (fun d => rfl)
      (onLifecycleEvent fid LifecycleEvent.commit tB), hf4]
    have hcur : f4.currentDocument = ⟨some docId, none⟩ := congrArg Prod.fst hf4v
    simp [g3, docView, hcur]

def c4Frame : FrameData := { newFrame "m" with pendingDocument := some ⟨some "dA", none⟩ }

def c4State : ManagerState := ⟨some (FrameTree.node c4Frame []), true⟩

theorem frameCommit_racing_keeps_pending_witness :
    ∃ t3, (applyEvent c4State
        (PWEvent.frameCommittedNewDocumentNavigation "m" "https://x.test/" "" "dB")).main
        = some t3 ∧
      (findFrameData "m" t3).map docView =
        some (⟨some "dB", none⟩, some ⟨some "dA", none⟩) :=
  frameCommit_racing_keeps_pending c4State (FrameTree.node c4Frame []) "m" c4Frame
    ⟨some "dA", none⟩ "dA" "dB" "https://x.test/" "" rfl rfl (by decide) rfl rfl (by decide)

/-! ## C3: networkidle recalculation after a new-document commit -/

mutual
/-- The global networkidle consistency predicate: at every node of the tree,
`networkidle` is in the fired set exactly when the node is self-idle and all
of its children have `networkidle` fired (the fixed point that
`_recalculateNetworkIdle` computes). -/
def netIdleIffB : FrameTree → Bool
  | FrameTree.node d cs =>
    (decide (LifecycleEvent.networkidle ∈ d.fired) == recalcIsIdle d cs) && netIdleIffList cs
def netIdleIffList : List FrameTree → Bool
  | [] => true
  | c :: cs => netIdleIffB c && netIdleIffList cs
end

theorem netIdleIffList_eq (cs : List FrameTree) : netIdleIffList cs = cs.all netIdleIffB := by
  induction cs with
  | nil => rfl
  | cons c cs ih => simp [netIdleIffList, ih]

theorem netIdleIffB_node (d : FrameData) (cs : List FrameTree) :
    netIdleIffB (FrameTree.node d cs) =
      ((decide (LifecycleEvent.networkidle ∈ d.fired) == recalcIsIdle d cs) &&
        cs.all netIdleIffB) := by
  rw [netIdleIffB, netIdleIffList_eq]

theorem list_all_congr {α : Type _} (f g : α → Bool) (l : List α)
    (h : ∀ x ∈ l, f x = g x) : l.all f = l.all g := by
  induction l with
  | nil => rfl
  | cons a l ih =>
    simp only [List.all_cons, h a (by simp)]
    rw [ih (fun x hx => h x (by simp [hx]))]

/-- With no frame allowed to keep a stale `networkidle`
(`frameThatAllowsRemovingNetworkIdle = undefined`), a node's recalculated
fired set contains `networkidle` exactly when `isNetworkIdle` holds. -/
theorem recalcFired_none_mem (d : FrameData) (cs1 : List FrameTree) :
    (LifecycleEvent.networkidle ∈ recalcFired none d cs1) ↔ recalcIsIdle d cs1 = true := by
  by_cases hIdle : recalcIsIdle d cs1 = true <;>
    by_cases hmem : LifecycleEvent.networkidle ∈ d.fired <;>
      simp [recalcFired, hIdle, hmem, Finset.mem_erase, Finset.mem_insert,
        Bool.not_eq_true] at * <;>
      simp [hIdle, hmem]

/-- A full recalculation with no exempt frame establishes the global
networkidle consistency predicate at every node. -/
theorem recalc_none_netIdleIff (t : FrameTree) : netIdleIffB (recalcTree none t) = true := by
  induction t using FrameTree.strongInd with
  | _ d cs ih =>
    rw [recalcTree_eq, netIdleIffB_node]
    have hd' : recalcIsIdle { d with fired := recalcFired none d (cs.map (recalcTree none)) }
        (cs.map (recalcTree none)) = recalcIsIdle d (cs.map (recalcTree none)) := rfl
    rw [hd', Bool.and_eq_true]
    refine ⟨?_, ?_⟩
    · by_cases hI : recalcIsIdle d (cs.map (recalcTree none)) = true
      · rw [hI, decide_eq_true ((recalcFired_none_mem d _).mpr hI)]
        rfl
      · simp only [Bool.not_eq_true] at hI
        rw [hI, decide_eq_false (fun hmem =>
          by rw [(recalcFired_none_mem d _).mp hmem] at hI; cases hI)]
        rfl
    · rw [List.all_eq_true]
      intro c hc
      obtain ⟨c0, hc0, rfl⟩ := List.mem_map.mp hc
      exact ih c0 hc0

/-- `updateFrame` with a transform that touches neither `fired` nor the
self-idle flag preserves the root node's networkidle-relevant fields. -/
theorem updateFrame_data_pres (fid : FrameId) (g : FrameData → FrameData)
    (hg : ∀ d, (g d).fired = d.fired ∧ (g d).firedNetworkIdleSelf = d.firedNetworkIdleSelf)
    (t : FrameTree) :
    (updateFrame fid g t).data.fired = t.data.fired ∧
      (updateFrame fid g t).data.firedNetworkIdleSelf = t.data.firedNetworkIdleSelf := by
  rcases t with ⟨d, cs⟩
  rw [updateFrame_eq]
  show (if d.id = fid then g d else d).fired = d.fired ∧
    (if d.id = fid then g d else d).firedNetworkIdleSelf = d.firedNetworkIdleSelf
  split
  · exact hg d
  · exact ⟨rfl, rfl⟩

/-- `updateFrame` with a transform that touches neither `fired` nor the
self-idle flag preserves the global networkidle consistency predicate. -/
theorem netIdleIffB_updateFrame (fid : FrameId) (g : FrameData → FrameData)
    (hg : ∀ d, (g d).fired = d.fired ∧ (g d).firedNetworkIdleSelf = d.firedNetworkIdleSelf)
    (t : FrameTree) : netIdleIffB (updateFrame fid g t) = netIdleIffB t := by
  induction t using FrameTree.strongInd with
  | _ d cs ih =>
    rw [updateFrame_eq, netIdleIffB_node, netIdleIffB_node]
    have hfired : (if d.id = fid then g d else d).fired = d.fired := by
      split
    
      case isTrue => exact (hg d).1
      case isFalse => rfl
    have hIdle : recalcIsIdle (if d.id = fid then g d else d)
        (cs.map (updateFrame fid g)) = recalcIsIdle d cs := by
      unfold recalcIsIdle
      have hself : (if d.id = fid then g d else d).firedNetworkIdleSelf =
          d.firedNetworkIdleSelf := by
        split
        case isTrue => exact (hg d).2
        case isFalse => rfl
      rw [hself, List.all_map]
      congr 1
      exact list_all_congr _ _ cs (fun c _ => by
        show decide (LifecycleEvent.networkidle ∈ (updateFrame fid g c).data.fired) =
          decide (LifecycleEvent.networkidle ∈ c.data.fired)
        rw [(updateFrame_data_pres fid g hg c).1])
    rw [hfired, hIdle, List.all_map]
    congr 1
    exact list_all_congr _ _ cs (fun c hc => ih c hc)

/-- The frame holding the observed frame's `networkidle` flag, if found. -/
def firedNetworkidleOf (st : ManagerState) (fid : FrameId) : Option Bool :=
  match st.main with
  | some t => (findFrameData fid t).map (fun d => decide (LifecycleEvent.networkidle ∈ d.fired))
  | none => none

/-- A frame state in which the networkidle timer has already fired and the
event is held: self-idle and `networkidle` in the fired set. -/
def withNetIdle (d : FrameData) : FrameData :=
  { d with
    fired := insert LifecycleEvent.networkidle d.fired
    firedNetworkIdleSelf := true }

def c3Parent : FrameData := withNetIdle (newFrame "m")

def c3Child : FrameData := withNetIdle (newFrame "c")

def c3State : ManagerState :=
  ⟨some (FrameTree.node c3Parent [FrameTree.node c3Child []]), true⟩

/-- **C3 counterexample**.  A new-document commit on a child frame retracts
`networkidle` from its parent: before the commit on "c", the ancestor "m"
has `networkidle` fired; afterwards it does not — retraction is not limited
to the committing frame, because `_recalculateNetworkIdle` removes the
event from every frame other than `frameThatAllowsRemovingNetworkIdle`. -/
theorem commit_networkidle_ancestor_retraction_counterexample :
    firedNetworkidleOf c3State "m" = some true ∧
    ("m" : FrameId) ≠ "c" ∧
    firedNetworkidleOf (applyEvent c3State
      (PWEvent.frameCommittedNewDocumentNavigation "c" "https://x.test/" "" "d2")) "m" =
      some false := by
  decide

/-- **C3 amended**.  After `frameCommittedNewDocumentNavigation` on any
frame present in the tree, the lifecycle state is globally recalculated:
in the resulting tree every node (the committing frame, its siblings and
its ancestors alike) has `networkidle` fired exactly when it is self-idle
and all of its children have `networkidle` fired. -/
theorem commit_recalc_enforces_networkidle_iff
    (st : ManagerState) (t : FrameTree) (fid : FrameId) (f : FrameData)
    (url name docId : String)
    (hmain : st.main = some t) (hlive : st.mainLive = true)
    (hf : findFrameData fid t = some f) :
    ∃ t3,
      (applyEvent st (PWEvent.frameCommittedNewDocumentNavigation fid url name docId)).main
        = some t3 ∧
      netIdleIffB t3 = true := by
  obtain ⟨s, hs⟩ : ∃ s, findSubtree fid t = some s := by
    rcases hs : findSubtree fid t with _ | s
    · rw [findFrameData, hs] at hf
      cases hf
    · exact ⟨s, rfl⟩
  have hlook : lookupFrame st fid = some s := by
    unfold lookupFrame
    rw [hmain, hlive]
    simpa using hs
  set pair := commitDocPair docId s.data.pendingDocument with hpairdef
  set g0 : FrameTree → FrameTree :=
    fun sub => FrameTree.node (commitNodeData url name pair.1 sub.data) [] with hg0
  set insC : FrameData → FrameData :=
    fun d => { d with fired := insert LifecycleEvent.commit d.fired } with hinsC
  set g3 : FrameData → FrameData := fun d => { d with pendingDocument := pair.2 } with hg3
  set t1 := updateSubtree fid g0 t with ht1
  set tA := updateFrame fid clearLifecycleData t1 with htA
  set tB := recalcTree (some fid) tA with htB
  have hfind1 : findFrameData fid t1 = some (commitNodeData url name pair.1 f) := by
    rw [ht1, findFrameData_updateSubtree fid g0 (commitNodeData url name pair.1)
      (fun s2 _ => rfl) (fun d => rfl) t, hf]
    rfl
  have hfindA : findFrameData fid tA =
      some (clearLifecycleData (commitNodeData url name pair.1 f)) := by
    rw [htA, findFrameData_updateFrame fid clearLifecycleData clearLifecycleData_id t1, hfind1]
    rfl
  have hdcA : (findFrameData fid tA).map dcView =
      some ((pair.1, none), false) := by
    rw [hfindA, Option.map_some']
    unfold dcView
    rw [docView_clearLifecycleData, commitMemB_clearLifecycleData]
    rfl
  have hdcB : (findFrameData fid tB).map dcView =
      some ((pair.1, none), false) := by
    rw [htB, findDcView_recalc fid (some fid) tA]
    exact hdcA
  obtain ⟨f2, hf2, hf2v⟩ : ∃ f2, findFrameData fid tB = some f2 ∧
      dcView f2 = ((pair.1, none), false) := by
    rcases hfb : findFrameData fid tB with _ | f2
    · rw [hfb] at hdcB
      cases hdcB
    · rw [hfb] at hdcB
      exact ⟨f2, rfl, by simpa using hdcB⟩
  have hf2commit : LifecycleEvent.commit ∉ f2.fired := by
    have : commitMemB f2 = false := congrArg Prod.snd hf2v
    simpa [commitMemB] using this
  have ht2 : onLifecycleEvent fid LifecycleEvent.commit tB =
      recalcTree none (updateFrame fid insC tB) := by
    unfold onLifecycleEvent
    rw [hf2]
    dsimp only
    rw [if_neg hf2commit]
  refine ⟨updateFrame fid g3 (onLifecycleEvent fid LifecycleEvent.commit tB), ?_, ?_⟩
  · simp only [applyEvent, frameCommittedNewDocumentNavigationFull, hlook, mapMain, hmain,
      onClearLifecycle]
  · rw [ht2, netIdleIffB_updateFrame fid g3 (fun d => ⟨rfl, rfl⟩)]
    exact recalc_none_netIdleIff _

theorem commit_recalc_enforces_networkidle_iff_witness :
    ∃ t3,
      (applyEvent c3State
        (PWEvent.frameCommittedNewDocumentNavigation "c" "https://y.test/" "" "d3")).main
        = some t3 ∧
      netIdleIffB t3 = true :=
  commit_recalc_enforces_networkidle_iff c3State
    (FrameTree.node c3Parent [FrameTree.node c3Child []]) "c" c3Child "https://y.test/" ""
    "d3" rfl rfl (by decide)

/-! ## C9: frame detach removes the subtree children-first and settles waiters -/

/-- `x` occurs strictly before `y` in the list. -/
def listBefore (l : List FrameId) (x y : FrameId) : Prop :=
  ∃ l1 l2 l3, l = l1 ++ (x :: (l2 ++ (y :: l3)))

mutual
/-- All (child id, parent id) edges of a tree. -/
def childParentPairs : FrameTree → List (FrameId × FrameId)
  | FrameTree.node d cs =>
    cs.map (fun c => (c.data.id, d.id)) ++ childParentPairsList cs
def childParentPairsList : List FrameTree → List (FrameId × FrameId)
  | [] => []
  | c :: cs => childParentPairs c ++ childParentPairsList cs
end

theorem treeIdsList_congr (f : FrameTree → FrameTree) :
    ∀ cs : List FrameTree, (∀ c ∈ cs, treeIds (f c) = treeIds c) →
      treeIdsList (cs.map f) = treeIdsList cs := by
  intro cs
  induction cs with
  | nil => intro _; rfl
  | cons c cs0 ihl =>
    intro h
    simp only [List.map_cons, treeIdsList]
    rw [h c (List.mem_cons_self c cs0), ihl (fun c2 hc2 => h c2 (List.mem_cons_of_mem _ hc2))]

/-- Recalculation touches only fired sets, never the tree structure or ids. -/
theorem treeIds_recalc (a : Option FrameId) : ∀ u, treeIds (recalcTree a u) = treeIds u := by
  refine FrameTree.strongInd ?_
  intro d cs ih
  rw [recalcTree_eq]
  simp only [treeIds]
  rw [treeIdsList_congr (recalcTree a) cs ih]

/-- The ids of a found subtree are among the ids of the whole tree. -/
theorem findSubtree_ids_subset (fid : FrameId) :
    ∀ t s, findSubtree fid t = some s → ∀ x, x ∈ treeIds s → x ∈ treeIds t := by
  refine FrameTree.strongInd ?_
  intro d cs ih s hfind x hx
  simp only [findSubtree] at hfind
  by_cases hid : d.id = fid
  · rw [if_pos hid] at hfind
    cases hfind
    exact hx
  · rw [if_neg hid] at hfind
    simp only [treeIds]
    have key : ∀ cs', (∀ c ∈ cs', ∀ s2, findSubtree fid c = some s2 →
          ∀ y, y ∈ treeIds s2 → y ∈ treeIds c) →
        findSubtreeList fid cs' = some s → x ∈ treeIdsList cs' := by
      intro cs'
      induction cs' with
      | nil => intro _ hf; simp only [findSubtreeList] at hf; exact Option.noConfusion hf
      | cons c cs0 ihl =>
        intro hP hf
        simp only [findSubtreeList] at hf
        rcases hfc : findSubtree fid c with _ | s0
        · rw [hfc] at hf
          simp only [treeIdsList]
          exact List.mem_append_right _
            (ihl (fun c2 hc2 => hP c2 (List.mem_cons_of_mem _ hc2)) hf)
        · rw [hfc] at hf
          cases hf
          simp only [treeIdsList]
          exact List.mem_append_left _ (hP c (List.mem_cons_self c cs0) _ hfc x hx)
    exact List.mem_cons_of_mem _ (key cs ih hfind)

theorem findSubtreeList_ids_subset (fid : FrameId) :
    ∀ (cs : List FrameTree) (s : FrameTree), findSubtreeList fid cs = some s →
      ∀ x, x ∈ treeIds s → x ∈ treeIdsList cs := by
  intro cs
  induction cs with
  | nil => intro s hf; simp only [findSubtreeList] at hf; exact Option.noConfusion hf
  | cons c cs0 ihl =>
    intro s hf x hx
    simp only [findSubtreeList] at hf
    rcases hfc : findSubtree fid c with _ | s0
    · rw [hfc] at hf
      simp only [treeIdsList]
      exact List.mem_append_right _ (ihl s hf x hx)
    · rw [hfc] at hf
      cases hf
      simp only [treeIdsList]
      exact List.mem_append_left _ (findSubtree_ids_subset fid c _ hfc x hx)

/-- Removing subtrees only shrinks the id set. -/
theorem removeSubtrees_ids_sub (fid : FrameId) :
    ∀ t x, x ∈ treeIds (removeSubtrees fid t) → x ∈ treeIds t := by
  refine FrameTree.strongInd ?_
  intro d cs ih x hx
  simp only [removeSubtrees, treeIds] at hx ⊢
  rcases List.mem_cons.mp hx with h1 | h2
  · exact List.mem_cons.mpr (Or.inl h1)
  · refine List.mem_cons_of_mem _ ?_
    have key : ∀ cs', (∀ c ∈ cs', ∀ y, y ∈ treeIds (removeSubtrees fid c) → y ∈ treeIds c) →
        x ∈ treeIdsList (removeSubtreesList fid cs') → x ∈ treeIdsList cs' := by
      intro cs'
      induction cs' with
      | nil =>
        intro _ h
        simp only [removeSubtreesList, treeIdsList] at h
        exact absurd h (List.not_mem_nil x)
      | cons c cs0 ihl =>
        intro hP h
        simp only [removeSubtreesList] at h
        by_cases hc : c.data.id = fid
        · rw [if_pos hc] at h
          simp only [treeIdsList]
          exact List.mem_append_right _
            (ihl (fun c2 hc2 => hP c2 (List.mem_cons_of_mem _ hc2)) h)
        · rw [if_neg hc] at h
          simp only [treeIdsList] at h ⊢
          rcases List.mem_append.mp h with hL | hR
          · exact List.mem_append_left _ (hP c (List.mem_cons_self c cs0) x hL)
          · exact List.mem_append_right _
              (ihl (fun c2 hc2 => hP c2 (List.mem_cons_of_mem _ hc2)) hR)
    exact key cs ih h2

theorem removeSubtreesList_ids_sub (fid : FrameId) :
    ∀ cs x, x ∈ treeIdsList (removeSubtreesList fid cs) → x ∈ treeIdsList cs := by
  intro cs
  induction cs with
  | nil =>
    intro x h
    simp only [removeSubtreesList] at h
    exact h
  | cons c cs0 ihl =>
    intro x h
    simp only [removeSubtreesList] at h
    by_cases hc : c.data.id = fid
    · rw [if_pos hc] at h
      simp only [treeIdsList]
      exact List.mem_append_right _ (ihl x h)
    · rw [if_neg hc] at h
      simp only [treeIdsList] at h ⊢
      rcases List.mem_append.mp h with hL | hR
      · exact List.mem_append_left _ (removeSubtrees_ids_sub fid c x hL)
      · exact List.mem_append_right _ (ihl x hR)

/-- With duplicate-free ids, removing the subtree found for `fid` removes
every one of its ids from the surviving tree. -/
theorem removeSubtrees_gone (fid : FrameId) :
    ∀ t s, (treeIds t).Nodup → t.data.id ≠ fid → findSubtree fid t = some s →
      ∀ x, x ∈ treeIds s → x ∉ treeIds (removeSubtrees fid t) := by
  refine FrameTree.strongInd ?_
  intro d cs ih s hnd hne hfind x hx
  have hne' : d.id ≠ fid := hne
  simp only [findSubtree] at hfind
  rw [if_neg hne'] at hfind
  simp only [treeIds] at hnd
  obtain ⟨hdnot, hndcs⟩ := List.nodup_cons.mp hnd
  simp only [removeSubtrees, treeIds]
  intro hmem
  rcases List.mem_cons.mp hmem with h1 | h2
  · exact hdnot (h1 ▸ findSubtreeList_ids_subset fid cs s hfind x hx)
  · have key : ∀ cs', (∀ c ∈ cs', ∀ s2, (treeIds c).Nodup → c.data.id ≠ fid →
          findSubtree fid c = some s2 →
          ∀ y, y ∈ treeIds s2 → y ∉ treeIds (removeSubtrees fid c)) →
        (treeIdsList cs').Nodup → findSubtreeList fid cs' = some s →
        x ∉ treeIdsList (removeSubtreesList fid cs') := by
      intro cs'
      induction cs' with
      | nil => intro _ _ hf; simp only [findSubtreeList] at hf; exact Option.noConfusion hf
      | cons c cs0 ihl =>
        intro hP hnd0 hf
        simp only [treeIdsList] at hnd0
        obtain ⟨ndc, ndcs0, disj⟩ := List.nodup_append.mp hnd0
        simp only [findSubtreeList] at hf
        rcases hfc : findSubtree fid c with _ | s0
        · rw [hfc] at hf
          have hcne : c.data.id ≠ fid := by
            intro hceq
            rcases c with ⟨d0, cs1⟩
            simp only [FrameTree.data] at hceq
            simp only [findSubtree] at hfc
            rw [if_pos hceq] at hfc
            exact Option.noConfusion hfc
          simp only [removeSubtreesList]
          rw [if_neg hcne]
          simp only [treeIdsList]
          intro hmem2
          rcases List.mem_append.mp hmem2 with hL | hR
          · exact disj (removeSubtrees_ids_sub fid c x hL)
              (findSubtreeList_ids_subset fid cs0 s hf x hx)
          · exact ihl (fun c2 hc2 => hP c2 (List.mem_cons_of_mem _ hc2)) ndcs0 hf hR
        · rw [hfc] at hf
          cases hf
          by_cases hcid : c.data.id = fid
          · have hxc : x ∈ treeIds c := by
              rcases c with ⟨d0, cs1⟩
              simp only [FrameTree.data] at hcid
              simp only [findSubtree] at hfc
              rw [if_pos hcid] at hfc
              cases hfc
              exact hx
            simp only [removeSubtreesList]
            rw [if_pos hcid]
            intro hmem2
            exact disj hxc (removeSubtreesList_ids_sub fid cs0 x hmem2)
          · simp only [removeSubtreesList]
            rw [if_neg hcid]
            simp only [treeIdsList]
            intro hmem2
            rcases List.mem_append.mp hmem2 with hL | hR
            · exact hP c (List.mem_cons_self c cs0) _ ndc hcid hfc x hx hL
            · exact disj (findSubtree_ids_subset fid c _ hfc x hx)
                (removeSubtreesList_ids_sub fid cs0 x hR)
    exact key cs ih hndcs hfind h2

theorem listBefore_infix {x y : FrameId} (a b : List FrameId) {l : List FrameId}
    (h : listBefore l x y) : listBefore (a ++ l ++ b) x y := by
  obtain ⟨l1, l2, l3, rfl⟩ := h
  exact ⟨a ++ l1, l2, l3 ++ b, by simp⟩

theorem mem_before_append {x : FrameId} (l : List FrameId) (y : FrameId) (h : x ∈ l) :
    listBefore (l ++ [y]) x y := by
  obtain ⟨l1, l2, rfl⟩ := List.append_of_mem h
  exact ⟨l1, l2, [], by simp⟩

theorem removalOrderList_mem_of {z : FrameId} :
    ∀ (cs : List FrameTree) (c : FrameTree), c ∈ cs → z ∈ removalOrder c →
      z ∈ removalOrderList cs := by
  intro cs
  induction cs with
  | nil => intro c hc; cases hc
  | cons c0 cs0 ihl =>
    intro c hc hz
    simp only [removalOrderList]
    rcases List.mem_cons.mp hc with h1 | h2
    · exact List.mem_append_left _ (h1 ▸ hz)
    · exact List.mem_append_right _ (ihl c h2 hz)

theorem childParentPairsList_mem {pr : FrameId × FrameId} :
    ∀ cs : List FrameTree, pr ∈ childParentPairsList cs →
      ∃ c, c ∈ cs ∧ pr ∈ childParentPairs c := by
  intro cs
  induction cs with
  | nil => intro h; simp only [childParentPairsList] at h; cases h
  | cons c cs0 ihl =>
    intro h
    simp only [childParentPairsList] at h
    rcases List.mem_append.mp h with hL | hR
    · exact ⟨c, List.mem_cons_self c cs0, hL⟩
    · obtain ⟨c2, hc2, hp2⟩ := ihl hR
      exact ⟨c2, List.mem_cons_of_mem _ hc2, hp2⟩

theorem removalOrderList_split :
    ∀ (cs : List FrameTree) (c : FrameTree), c ∈ cs →
      ∃ a b, removalOrderList cs = a ++ removalOrder c ++ b := by
  intro cs
  induction cs with
  | nil => intro c hc; cases hc
  | cons c0 cs0 ihl =>
    intro c hc
    simp only [removalOrderList]
    rcases List.mem_cons.mp hc with h1 | h2
    · exact ⟨[], removalOrderList cs0, by rw [h1]; simp⟩
    · obtain ⟨a, b, hab⟩ := ihl c h2
      exact ⟨removalOrder c0 ++ a, b, by rw [hab]; simp⟩

/-- `_removeFramesRecursively` deletes children before their parent. -/
theorem removalOrder_childParent :
    ∀ s, ∀ pr ∈ childParentPairs s, listBefore (removalOrder s) pr.1 pr.2 := by
  refine FrameTree.strongInd ?_
  intro d cs ih pr hpr
  simp only [childParentPairs] at hpr
  simp only [removalOrder]
  rcases List.mem_append.mp hpr with h1 | h2
  · obtain ⟨c, hc, hpr2⟩ := List.mem_map.mp h1
    have hm1 : c.data.id ∈ removalOrder c := by
      rcases c with ⟨d0, cs0⟩
      simp only [removalOrder, FrameTree.data]
      exact List.mem_append_right _ (List.mem_singleton.mpr rfl)
    have hmem : c.data.id ∈ removalOrderList cs := removalOrderList_mem_of cs c hc hm1
    have hb := mem_before_append (removalOrderList cs) d.id hmem
    rw [← hpr2]
    exact hb
  · obtain ⟨c, hc, hpc⟩ := childParentPairsList_mem cs h2
    obtain ⟨a, b, hab⟩ := removalOrderList_split cs c hc
    have h3 := listBefore_infix a (b ++ [d.id]) (ih c hc pr hpc)
    rw [hab]
    have heq2 : (a ++ removalOrder c ++ b) ++ [d.id] =
        a ++ removalOrder c ++ (b ++ [d.id]) := by
      simp [List.append_assoc]
    rw [heq2]
    exact h3

/-- Removal order is a permutation of the subtree's ids. -/
theorem removalOrder_perm : ∀ u : FrameTree, List.Perm (removalOrder u) (treeIds u) := by
  refine FrameTree.strongInd ?_
  intro d cs ih
  simp only [removalOrder, treeIds]
  have hl : ∀ cs', (∀ c ∈ cs', List.Perm (removalOrder c) (treeIds c)) →
      List.Perm (removalOrderList cs') (treeIdsList cs') := by
    intro cs'
    induction cs' with
    | nil => intro _; exact List.Perm.refl _
    | cons c cs0 ihl =>
      intro hP
      simp only [removalOrderList, treeIdsList]
      exact List.Perm.append (hP c (List.mem_cons_self c cs0))
        (ihl (fun c2 hc2 => hP c2 (List.mem_cons_of_mem _ hc2)))
  exact List.Perm.trans (List.perm_append_singleton d.id (removalOrderList cs))
    (List.Perm.cons d.id (hl cs ih))

/-- Each removal record is exactly `_onDetached` applied to the removed
frame's state, in removal order. -/
theorem removalRecords_eq_map :
    ∀ u : FrameTree, removalRecords u = (postNodes u).map onDetachedData := by
  refine FrameTree.strongInd ?_
  intro d cs ih
  simp only [removalRecords, postNodes, List.map_append, List.map_cons, List.map_nil]
  have hl : ∀ cs', (∀ c ∈ cs', removalRecords c = (postNodes c).map onDetachedData) →
      removalRecordsList cs' = (postNodesList cs').map onDetachedData := by
    intro cs'
    induction cs' with
    | nil => intro _; rfl
    | cons c cs0 ihl =>
      intro hP
      simp only [removalRecordsList, postNodesList, List.map_append]
      rw [hP c (List.mem_cons_self c cs0), ihl (fun c2 hc2 => hP c2 (List.mem_cons_of_mem _ hc2))]
  rw [hl cs ih]

theorem onDetachedData_id (f : FrameData) : (onDetachedData f).id = f.id := rfl

theorem onDetachedData_detached (f : FrameData) : (onDetachedData f).detached = true := rfl

theorem onDetachedData_ctxMain (f : FrameData) :
    (onDetachedData f).ctxMain = settleContext f.ctxMain := rfl

theorem onDetachedData_ctxUtility (f : FrameData) :
    (onDetachedData f).ctxUtility = settleContext f.ctxUtility := rfl

/-- The removal records carry the removed ids in removal order. -/
theorem removalRecords_ids :
    ∀ u : FrameTree, (removalRecords u).map FrameData.id = removalOrder u := by
  refine FrameTree.strongInd ?_
  intro d cs ih
  simp only [removalRecords, removalOrder, List.map_append, List.map_cons, List.map_nil]
  have hl : ∀ cs', (∀ c ∈ cs', (removalRecords c).map FrameData.id = removalOrder c) →
      (removalRecordsList cs').map FrameData.id = removalOrderList cs' := by
    intro cs'
    induction cs' with
    | nil => intro _; rfl
    | cons c cs0 ihl =>
      intro hP
      simp only [removalRecordsList, removalOrderList, List.map_append]
      rw [hP c (List.mem_cons_self c cs0), ihl (fun c2 hc2 => hP c2 (List.mem_cons_of_mem _ hc2))]
  rw [hl cs ih, onDetachedData_id]

/-- `_onDetached` leaves no context promise pending. -/
theorem settleContext_not_pending (c : ContextData) :
    (settleContext c).promise ≠ PromiseState.unresolvedP := by
  unfold settleContext
  dsimp only
  rcases hp : c.promise with _ | _ | r <;> simp [hp]

/-- A pending context promise is rejected with the detach reason. -/
theorem settleContext_rejects (c : ContextData) (h : c.promise = PromiseState.unresolvedP) :
    (settleContext c).promise = PromiseState.resolvedDestroyed "Frame was detached" := by
  unfold settleContext
  dsimp only
  rw [h]

/-- **C9**.  Detaching a frame found in the tree removes exactly its subtree
from the frame map, children strictly before parents; one `_onDetached`
record is produced per removed frame in removal order, and each record has
the frame marked detached with no context promise (main or utility world)
left pending — a promise that was pending is resolved with the destroyed
reason "Frame was detached". -/
theorem frameDetached_removes_subtree_and_settles
    (st : ManagerState) (t : FrameTree) (fid : FrameId) (s : FrameTree)
    (hmain : st.main = some t) (hlive : st.mainLive = true)
    (hs : findSubtree fid t = some s) (hnd : (treeIds t).Nodup) :
    (∀ x, x ∈ (frameDetachedFull st fid).2.1 ↔ x ∈ treeIds s) ∧
    (∀ pr ∈ childParentPairs s, listBefore (frameDetachedFull st fid).2.1 pr.1 pr.2) ∧
    (∀ x ∈ treeIds s, x ∉ liveFrameIds (frameDetachedFull st fid).1) ∧
    ((frameDetachedFull st fid).2.2 = (postNodes s).map onDetachedData) ∧
    (((frameDetachedFull st fid).2.2).map FrameData.id = (frameDetachedFull st fid).2.1) ∧
    (∀ r ∈ (frameDetachedFull st fid).2.2, r.detached = true ∧
      r.ctxMain.promise ≠ PromiseState.unresolvedP ∧
      r.ctxUtility.promise ≠ PromiseState.unresolvedP) ∧
    (∀ f : FrameData, f.ctxMain.promise = PromiseState.unresolvedP →
      (onDetachedData f).ctxMain.promise =
        PromiseState.resolvedDestroyed "Frame was detached") ∧
    (∀ f : FrameData, f.ctxUtility.promise = PromiseState.unresolvedP →
      (onDetachedData f).ctxUtility.promise =
        PromiseState.resolvedDestroyed "Frame was detached") := by
  have hlook : lookupFrame st fid = some s := by
    unfold lookupFrame
    rw [hmain, hlive]
    simpa using hs
  obtain ⟨st2, heq, hgone⟩ : ∃ st2,
      frameDetachedFull st fid = (st2, removalOrder s, removalRecords s) ∧
      ∀ x ∈ treeIds s, x ∉ liveFrameIds st2 := by
    by_cases hroot : t.data.id = fid
    · refine ⟨{ main := some (recalcTree none (FrameTree.node (onDetachedData t.data) [])),
                mainLive := false }, ?_, ?_⟩
      · simp only [frameDetachedFull, hlook, hmain]
        rw [if_pos hroot]
      · intro x hx
        simp [liveFrameIds]
    · refine ⟨{ main := some (recalcTree none (removeSubtrees fid t)),
                mainLive := st.mainLive }, ?_, ?_⟩
      · simp only [frameDetachedFull, hlook, hmain]
        rw [if_neg hroot]
      · intro x hx
        simp only [liveFrameIds]
        rw [hlive]
        simp only [if_true]
        rw [treeIds_recalc]
        exact removeSubtrees_gone fid t s hnd hroot hs x hx
  rw [heq]
  dsimp only
  refine ⟨?_, ?_, ?_, ?_, ?_, ?_, ?_, ?_⟩
  · intro x
    exact (removalOrder_perm s).mem_iff
  · exact removalOrder_childParent s
  · exact hgone
  · exact removalRecords_eq_map s
  · exact removalRecords_ids s
  · intro r hr
    rw [removalRecords_eq_map s] at hr
    obtain ⟨d0, _, rfl⟩ := List.mem_map.mp hr
    refine ⟨onDetachedData_detached d0, ?_, ?_⟩
    · rw [onDetachedData_ctxMain]
      exact settleContext_not_pending _
    · rw [onDetachedData_ctxUtility]
      exact settleContext_not_pending _
  · intro f hf
    rw [onDetachedData_ctxMain]
    exact settleContext_rejects _ hf
  · intro f hf
    rw [onDetachedData_ctxUtility]
    exact settleContext_rejects _ hf

def c9Sub : FrameTree :=
  FrameTree.node (newFrame "a") [FrameTree.node (newFrame "a1") []]

def c9Tree : FrameTree :=
  FrameTree.node (newFrame "m") [c9Sub, FrameTree.node (newFrame "b") []]

def c9State : ManagerState := ⟨some c9Tree, true⟩

theorem frameDetached_removes_subtree_and_settles_witness :
    (∀ x, x ∈ (frameDetachedFull c9State "a").2.1 ↔ x ∈ treeIds c9Sub) ∧
    (∀ pr ∈ childParentPairs c9Sub, listBefore (frameDetachedFull c9State "a").2.1 pr.1 pr.2) ∧
    (∀ x ∈ treeIds c9Sub, x ∉ liveFrameIds (frameDetachedFull c9State "a").1) ∧
    ((frameDetachedFull c9State "a").2.2 = (postNodes c9Sub).map onDetachedData) ∧
    (((frameDetachedFull c9State "a").2.2).map FrameData.id =
      (frameDetachedFull c9State "a").2.1) ∧
    (∀ r ∈ (frameDetachedFull c9State "a").2.2, r.detached = true ∧
      r.ctxMain.promise ≠ PromiseState.unresolvedP ∧
      r.ctxUtility.promise ≠ PromiseState.unresolvedP) ∧
    (∀ f : FrameData, f.ctxMain.promise = PromiseState.unresolvedP →
      (onDetachedData f).ctxMain.promise =
        PromiseState.resolvedDestroyed "Frame was detached") ∧
    (∀ f : FrameData, f.ctxUtility.promise = PromiseState.unresolvedP →
      (onDetachedData f).ctxUtility.promise =
        PromiseState.resolvedDestroyed "Frame was detached") :=
  frameDetached_removes_subtree_and_settles c9State c9Tree "a" c9Sub rfl rfl rfl (by decide)

/-! ## C10: commit is always in every frame's fired set -/

mutual
/-- `p` holds at every node of the tree. -/
def allNodesB (p : FrameData → Bool) : FrameTree → Bool
  | FrameTree.node d cs => p d && allNodesList p cs
def allNodesList (p : FrameData → Bool) : List FrameTree → Bool
  | [] => true
  | c :: cs => allNodesB p c && allNodesList p cs
end

theorem allNodesList_eq (p : FrameData → Bool) (cs : List FrameTree) :
    allNodesList p cs = cs.all (allNodesB p) := by
  induction cs with
  | nil => rfl
  | cons c cs ih => simp [allNodesList, ih]

theorem allNodesB_node (p : FrameData → Bool) (d : FrameData) (cs : List FrameTree) :
    allNodesB p (FrameTree.node d cs) = (p d && cs.all (allNodesB p)) := by
  rw [allNodesB, allNodesList_eq]

theorem allNodesB_mono (p q : FrameData → Bool) (hpq : ∀ d, p d = true → q d = true) :
    ∀ t, allNodesB p t = true → allNodesB q t = true := by
  refine FrameTree.strongInd ?_
  intro d cs ih h
  rw [allNodesB_node, Bool.and_eq_true, List.all_eq_true] at h
  obtain ⟨h1, h2⟩ := h
  rw [allNodesB_node, Bool.and_eq_true, List.all_eq_true]
  exact ⟨hpq d h1, fun c hc => ih c hc (h2 c hc)⟩

/-- `updateFrame` preserves a nodewise invariant when the transform does at
every node carrying the target id. -/
theorem allNodesB_updateFrame (p : FrameData → Bool) (fid : FrameId)
    (g : FrameData → FrameData) (hg : ∀ d, d.id = fid → p d = true → p (g d) = true) :
    ∀ t, allNodesB p t = true → allNodesB p (updateFrame fid g t) = true := by
  refine FrameTree.strongInd ?_
  intro d cs ih h
  rw [allNodesB_node, Bool.and_eq_true, List.all_eq_true] at h
  obtain ⟨h1, h2⟩ := h
  rw [updateFrame_eq, allNodesB_node, Bool.and_eq_true, List.all_eq_true]
  constructor
  · by_cases hid : d.id = fid
    · rw [if_pos hid]
      exact hg d hid h1
    · rw [if_neg hid]
      exact h1
  · intro c hc
    obtain ⟨c0, hc0, rfl⟩ := List.mem_map.mp hc
    exact ih c0 hc0 (h2 c0 hc0)

/-- The invariant weakened to ignore nodes with the given id. -/
def pExcept (fid : FrameId) (p : FrameData → Bool) (d : FrameData) : Bool :=
  if d.id = fid then true else p d

theorem pExcept_of (fid : FrameId) (p : FrameData → Bool) (d : FrameData)
    (h : p d = true) : pExcept fid p d = true := by
  unfold pExcept
  by_cases hid : d.id = fid
  · rw [if_pos hid]
  · rw [if_neg hid]
    exact h

/-- `updateFrame` establishes the full invariant from the weakened one when
the transform establishes `p` outright at every node carrying the id. -/
theorem allNodesB_updateFrame_set (p : FrameData → Bool) (fid : FrameId)
    (g : FrameData → FrameData) (hg : ∀ d, d.id = fid → p (g d) = true) :
    ∀ t, allNodesB (pExcept fid p) t = true → allNodesB p (updateFrame fid g t) = true := by
  refine FrameTree.strongInd ?_
  intro d cs ih h
  rw [allNodesB_node, Bool.and_eq_true, List.all_eq_true] at h
  obtain ⟨h1, h2⟩ := h
  rw [updateFrame_eq, allNodesB_node, Bool.and_eq_true, List.all_eq_true]
  constructor
  · by_cases hid : d.id = fid
    · rw [if_pos hid]
      exact hg d hid
    · rw [if_neg hid]
      unfold pExcept at h1
      rw [if_neg hid] at h1
      exact h1
  · intro c hc
    obtain ⟨c0, hc0, rfl⟩ := List.mem_map.mp hc
    exact ih c0 hc0 (h2 c0 hc0)

/-- Recalculation preserves any nodewise invariant untouched by
`recalcFired`. -/
theorem allNodesB_recalc (q : FrameData → Bool)
    (hq : ∀ a d cs1, q { d with fired := recalcFired a d cs1 } = q d) :
    ∀ t, ∀ a, allNodesB q (recalcTree a t) = allNodesB q t := by
  refine FrameTree.strongInd ?_
  intro d cs ih a
  rw [recalcTree_eq, allNodesB_node, allNodesB_node, hq, List.all_map]
  congr 1
  exact list_all_congr _ _ cs (fun c hc => ih c hc a)

theorem commitMemB_recalcFired (a : Option FrameId) (d : FrameData)
    (cs1 : List FrameTree) :
    commitMemB { d with fired := recalcFired a d cs1 } = commitMemB d := by
  unfold commitMemB
  exact decide_eq_decide.mpr (commit_mem_recalcFired a d cs1)

theorem pExcept_commitMemB_recalcFired (fid : FrameId) (a : Option FrameId) (d : FrameData)
    (cs1 : List FrameTree) :
    pExcept fid commitMemB { d with fired := recalcFired a d cs1 } =
      pExcept fid commitMemB d := by
  unfold pExcept
  rw [commitMemB_recalcFired]

theorem insertChildList_eq (pid : FrameId) (c : FrameTree) :
    ∀ cs : List FrameTree, insertChildList pid c cs = cs.map (insertChild pid c) := by
  intro cs
  induction cs with
  | nil => rfl
  | cons x cs0 ih => simp only [insertChildList, List.map_cons, ih]

theorem allNodesB_insertChild (p : FrameData → Bool) (pid : FrameId) (c : FrameTree)
    (hc : allNodesB p c = true) :
    ∀ t, allNodesB p t = true → allNodesB p (insertChild pid c t) = true := by
  refine FrameTree.strongInd ?_
  intro d cs ih h
  rw [allNodesB_node, Bool.and_eq_true, List.all_eq_true] at h
  obtain ⟨h1, h2⟩ := h
  simp only [insertChild, insertChildList_eq]
  rw [allNodesB_node, Bool.and_eq_true, List.all_append, Bool.and_eq_true]
  refine ⟨h1, ?_, ?_⟩
  · rw [List.all_eq_true]
    intro c2 hc2
    obtain ⟨c0, hc0, rfl⟩ := List.mem_map.mp hc2
    exact ih c0 hc0 (h2 c0 hc0)
  · by_cases hid : d.id = pid
    · rw [if_pos hid]
      simp [hc]
    · rw [if_neg hid]
      rfl

theorem allNodesB_removeSubtrees (p : FrameData → Bool) (fid : FrameId) :
    ∀ t, allNodesB p t = true → allNodesB p (removeSubtrees fid t) = true := by
  refine FrameTree.strongInd ?_
  intro d cs ih h
  rw [allNodesB_node, Bool.and_eq_true, List.all_eq_true] at h
  obtain ⟨h1, h2⟩ := h
  simp only [removeSubtrees]
  rw [allNodesB_node, Bool.and_eq_true]
  refine ⟨h1, ?_⟩
  have key : ∀ cs',
      (∀ c ∈ cs', allNodesB p c = true → allNodesB p (removeSubtrees fid c) = true) →
      (∀ c ∈ cs', allNodesB p c = true) →
      (removeSubtreesList fid cs').all (allNodesB p) = true := by
    intro cs'
    induction cs' with
    | nil => intro _ _; rfl
    | cons c cs0 ihl =>
      intro hP hA
      simp only [removeSubtreesList]
      by_cases hcid : c.data.id = fid
      · rw [if_pos hcid]
        exact ihl (fun c2 hc2 => hP c2 (List.mem_cons_of_mem _ hc2))
          (fun c2 hc2 => hA c2 (List.mem_cons_of_mem _ hc2))
      · rw [if_neg hcid]
        rw [List.all_cons, Bool.and_eq_true]
        exact ⟨hP c (List.mem_cons_self c cs0) (hA c (List.mem_cons_self c cs0)),
          ihl (fun c2 hc2 => hP c2 (List.mem_cons_of_mem _ hc2))
            (fun c2 hc2 => hA c2 (List.mem_cons_of_mem _ hc2))⟩
  exact key cs ih h2

theorem allNodesB_updateSubtree (p : FrameData → Bool) (fid : FrameId)
    (g : FrameTree → FrameTree)
    (hg : ∀ sub, allNodesB p sub = true → allNodesB p (g sub) = true) :
    ∀ t, allNodesB p t = true → allNodesB p (updateSubtree fid g t) = true := by
  refine FrameTree.strongInd ?_
  intro d cs ih h
  by_cases hid : d.id = fid
  · rw [updateSubtree_eq_pos fid g d cs hid]
    exact hg _ h
  · rw [updateSubtree_eq_neg fid g d cs hid]
    rw [allNodesB_node, Bool.and_eq_true, List.all_eq_true] at h
    obtain ⟨h1, h2⟩ := h
    rw [allNodesB_node, Bool.and_eq_true, List.all_eq_true]
    refine ⟨h1, ?_⟩
    intro c2 hc2
    obtain ⟨c0, hc0, rfl⟩ := List.mem_map.mp hc2
    exact ih c0 hc0 (h2 c0 hc0)

/-! Per-notification frame transforms never remove `commit` from the fired
set (only `_onClearLifecycle` does, and it re-adds it immediately). -/

theorem commitMemB_startNetworkIdleTimer (f : FrameData) :
    commitMemB (startNetworkIdleTimer f) = commitMemB f := by
  unfold startNetworkIdleTimer
  split
  · rfl
  · rfl

theorem commitMemB_frameRequestedNavigationData (docId : Option String) (f : FrameData) :
    commitMemB (frameRequestedNavigationData docId f) = commitMemB f := by
  unfold frameRequestedNavigationData
  rcases hp : f.pendingDocument with _ | p
  · rfl
  · dsimp only
    split
    · rfl
    · rfl

theorem commitMemB_frameCommittedSameDocumentNavigationData (url : String) (f : FrameData) :
    commitMemB (frameCommittedSameDocumentNavigationData url f) = commitMemB f := by
  unfold frameCommittedSameDocumentNavigationData
  rcases hp : f.pendingDocument with _ | p
  · rfl
  · dsimp only
    split
    · rfl
    · rfl

theorem commitMemB_frameAbortedNavigationData (docId : Option String) (f : FrameData) :
    commitMemB (frameAbortedNavigationData docId f) = commitMemB f := by
  unfold frameAbortedNavigationData
  rcases hp : f.pendingDocument with _ | p
  · rfl
  · rcases docId with _ | d0
    · rfl
    · dsimp only
      split
      · rfl
      · rfl

theorem commitMemB_inflightRequestStartedData (r : Request) (f : FrameData) :
    commitMemB (inflightRequestStartedData r f) = commitMemB f := by
  unfold inflightRequestStartedData
  split
  · rfl
  · dsimp only
    split
    · split
      · rfl
      · rfl
    · split
      · rfl
      · rfl

theorem commitMemB_requestStartedData (r : Request) (f : FrameData) :
    commitMemB (requestStartedData r f) = commitMemB f := by
  unfold requestStartedData
  dsimp only
  rcases hd : r.documentId with _ | d0
  · exact commitMemB_inflightRequestStartedData r f
  · exact commitMemB_inflightRequestStartedData r f

theorem commitMemB_inflightRequestFinishedData (r : Request) (f : FrameData) :
    commitMemB (inflightRequestFinishedData r f) = commitMemB f := by
  unfold inflightRequestFinishedData
  split
  · rfl
  · split
    · dsimp only
      split
      · rw [commitMemB_startNetworkIdleTimer]
        rfl
      · rfl
    · rfl

theorem commitMemB_requestFailedData (r : Request) (f : FrameData) :
    commitMemB (requestFailedData r f) = commitMemB f := by
  unfold requestFailedData
  dsimp only
  rcases hp : (inflightRequestFinishedData r f).pendingDocument with _ | p
  · exact commitMemB_inflightRequestFinishedData r f
  · dsimp only
    split
    · rw [commitMemB_frameAbortedNavigationData]
      exact commitMemB_inflightRequestFinishedData r f
    · exact commitMemB_inflightRequestFinishedData r f

theorem commitMemB_commitNodeData (url name : String) (cur : DocumentInfo) (f : FrameData) :
    commitMemB (commitNodeData url name cur f) = commitMemB f := rfl

theorem commitMemB_newFrame (fid : FrameId) : commitMemB (newFrame fid) = true := by
  show decide (LifecycleEvent.commit ∈ ({LifecycleEvent.commit} : Finset LifecycleEvent)) = true
  decide

/-- The C10 invariant: every frame in the manager's tree has `commit` in its
fired lifecycle set. -/
def commitInvariant (st : ManagerState) : Prop :=
  ∀ t, st.main = some t → allNodesB commitMemB t = true

theorem commitInvariant_mapMain (st : ManagerState) (g : FrameTree → FrameTree)
    (h : commitInvariant st)
    (hg : ∀ u, allNodesB commitMemB u = true → allNodesB commitMemB (g u) = true) :
    commitInvariant (mapMain st g) := by
  intro t' ht'
  unfold mapMain at ht'
  rcases hm : st.main with _ | u
  · rw [hm] at ht'
    dsimp only at ht'
    rw [hm] at ht'
    exact Option.noConfusion ht'
  · rw [hm] at ht'
    dsimp only at ht'
    cases ht'
    exact hg u (h u hm)

theorem commitInvariant_updateLiveFrame (st : ManagerState) (fid : FrameId)
    (g : FrameData → FrameData) (h : commitInvariant st)
    (hg : ∀ d, d.id = fid → commitMemB d = true → commitMemB (g d) = true) :
    commitInvariant (updateLiveFrame st fid g) := by
  rcases hl : lookupFrame st fid with _ | s
  · intro t' ht'
    unfold updateLiveFrame at ht'
    rw [hl] at ht'
    dsimp only at ht'
    exact h t' ht'
  · intro t' ht'
    unfold updateLiveFrame at ht'
    rw [hl] at ht'
    dsimp only at ht'
    exact commitInvariant_mapMain st (updateFrame fid g) h
      (fun u hu => allNodesB_updateFrame commitMemB fid g hg u hu) t' ht'

/-- One step of event application preserves the commit invariant. -/
theorem commitInvariant_applyEvent (st : ManagerState) (e : PWEvent)
    (h : commitInvariant st) : commitInvariant (applyEvent st e) := by
  cases e with
  | frameAttached fid parentId =>
    have hmainA : commitInvariant (frameAttachedAsMain st fid) := by
      intro t' ht'
      unfold frameAttachedAsMain at ht'
      rcases hm : st.main with _ | u
      · rw [hm] at ht'
        dsimp only at ht'
        cases ht'
        rw [allNodesB_node]
        simp only [List.all_nil, Bool.and_true]
        exact commitMemB_newFrame fid
      · rcases u with ⟨d, cs⟩
        rw [hm] at ht'
        dsimp only at ht'
        cases ht'
        have hu := h (FrameTree.node d cs) hm
        rw [allNodesB_node] at hu ⊢
        exact hu
    rcases parentId with _ | pid
    · intro t' ht'
      simp only [applyEvent] at ht'
      unfold frameAttachedFull at ht'
      dsimp only at ht'
      exact hmainA t' ht'
    · intro t' ht'
      simp only [applyEvent] at ht'
      unfold frameAttachedFull at ht'
      dsimp only at ht'
      rcases hlp : lookupFrame st pid with _ | sp
      · rw [hlp] at ht'
        dsimp only at ht'
        exact hmainA t' ht'
      · rw [hlp] at ht'
        dsimp only at ht'
        by_cases hex : (lookupFrame st fid).isSome = true
        · rw [if_pos hex] at ht'
          exact h t' ht'
        · rw [if_neg hex] at ht'
          refine commitInvariant_mapMain st _ h ?_ t' ht'
          intro u hu
          refine allNodesB_insertChild commitMemB pid _ ?_ u hu
          rw [allNodesB_node]
          simp only [List.all_nil, Bool.and_true]
          exact commitMemB_newFrame fid
  | frameDetached fid =>
    intro t' ht'
    simp only [applyEvent] at ht'
    unfold frameDetachedFull at ht'
    rcases hl : lookupFrame st fid with _ | s
    · rw [hl] at ht'
      dsimp only at ht'
      exact h t' ht'
    · rw [hl] at ht'
      dsimp only at ht'
      rcases hm : st.main with _ | u
      · rw [hm] at ht'
        dsimp only at ht'
        exact h t' ht'
      · rcases u with ⟨d, cs⟩
        rw [hm] at ht'
        dsimp only at ht'
        simp only [FrameTree.data] at ht'
        by_cases hroot : d.id = fid
        · rw [if_pos hroot] at ht'
          dsimp only at ht'
          cases ht'
          rw [allNodesB_recalc commitMemB commitMemB_recalcFired]
          rw [allNodesB_node]
          simp only [List.all_nil, Bool.and_true]
          have hu := h (FrameTree.node d cs) hm
          rw [allNodesB_node, Bool.and_eq_true] at hu
          exact hu.1
        · rw [if_neg hroot] at ht'
          dsimp only at ht'
          cases ht'
          rw [allNodesB_recalc commitMemB commitMemB_recalcFired]
          exact allNodesB_removeSubtrees commitMemB fid _ (h _ hm)
  | frameRequestedNavigation fid docId =>
    exact commitInvariant_updateLiveFrame st fid _ h
      (fun d _ hd => by rw [commitMemB_frameRequestedNavigationData]; exact hd)
  | frameCommittedNewDocumentNavigation fid url name docId =>
    intro t' ht'
    simp only [applyEvent] at ht'
    unfold frameCommittedNewDocumentNavigationFull at ht'
    rcases hl : lookupFrame st fid with _ | s
    · rw [hl] at ht'
      dsimp only at ht'
      exact h t' ht'
    · rw [hl] at ht'
      dsimp only at ht'
      rcases hm : st.main with _ | t0
      · unfold mapMain at ht'
        rw [hm] at ht'
        dsimp only at ht'
        rw [hm] at ht'
        exact Option.noConfusion ht'
      · unfold mapMain at ht'
        rw [hm] at ht'
        dsimp only at ht'
        cases ht'
        have hfs : findSubtree fid t0 = some s := by
          unfold lookupFrame at hl
          rw [hm] at hl
          dsimp only at hl
          by_cases hml : st.mainLive = true
          · rw [if_pos hml] at hl
            exact hl
          · rw [if_neg hml] at hl
            exact Option.noConfusion hl
        have hf0 : findFrameData fid t0 = some s.data := by
          rw [findFrameData, hfs]
          rfl
        have hu : allNodesB commitMemB t0 = true := h t0 hm
        set pair := commitDocPair docId s.data.pendingDocument with hpair
        set g0 : FrameTree → FrameTree :=
          fun sub => FrameTree.node (commitNodeData url name pair.1 sub.data) [] with hg0
        set insC : FrameData → FrameData :=
          fun d => { d with fired := insert LifecycleEvent.commit d.fired } with hinsC
        set g3 : FrameData → FrameData :=
          fun d => { d with pendingDocument := pair.2 } with hg3
        set t1 := updateSubtree fid g0 t0 with ht1
        set tA := updateFrame fid clearLifecycleData t1 with htA
        set tB := recalcTree (some fid) tA with htB
        have hfind1 : findFrameData fid t1 = some (commitNodeData url name pair.1 s.data) := by
          rw [ht1, findFrameData_updateSubtree fid g0 (commitNodeData url name pair.1)
            (fun s2 _ => rfl) (fun d => rfl) t0, hf0]
          rfl
        have hfindA : findFrameData fid tA =
            some (clearLifecycleData (commitNodeData url name pair.1 s.data)) := by
          rw [htA, findFrameData_updateFrame fid clearLifecycleData clearLifecycleData_id t1,
            hfind1]
          rfl
        have hdcA : (findFrameData fid tA).map dcView = some ((pair.1, none), false) := by
          rw [hfindA, Option.map_some']
          unfold dcView
          rw [docView_clearLifecycleData, commitMemB_clearLifecycleData]
          rfl
        have hdcB : (findFrameData fid tB).map dcView = some ((pair.1, none), false) := by
          rw [htB, findDcView_recalc fid (some fid) tA]
          exact hdcA
        obtain ⟨f2, hf2, hf2v⟩ : ∃ f2, findFrameData fid tB = some f2 ∧
            dcView f2 = ((pair.1, none), false) := by
          rcases hfb : findFrameData fid tB with _ | f2
          · rw [hfb] at hdcB
            cases hdcB
          · rw [hfb] at hdcB
            exact ⟨f2, rfl, by simpa using hdcB⟩
        have hf2commit : LifecycleEvent.commit ∉ f2.fired := by
          have hcb : commitMemB f2 = false := congrArg Prod.snd hf2v
          simpa [commitMemB] using hcb
        have ht2 : onLifecycleEvent fid LifecycleEvent.commit tB =
            recalcTree none (updateFrame fid insC tB) := by
          unfold onLifecycleEvent
          rw [hf2]
          dsimp only
          rw [if_neg hf2commit]
        have hoc : onClearLifecycle fid t1 = onLifecycleEvent fid LifecycleEvent.commit tB := by
          unfold onClearLifecycle
          rw [htB, htA]
        have h1 : allNodesB commitMemB t1 = true := by
          rw [ht1]
          refine allNodesB_updateSubtree commitMemB fid g0 ?_ t0 hu
          intro sub hsub
          rcases sub with ⟨d0, cs0⟩
          rw [allNodesB_node, Bool.and_eq_true] at hsub
          rw [hg0]
          dsimp only
          rw [allNodesB_node]
          simp only [List.all_nil, Bool.and_true]
          exact hsub.1
        have hA : allNodesB (pExcept fid commitMemB) tA = true := by
          rw [htA]
          refine allNodesB_updateFrame (pExcept fid commitMemB) fid clearLifecycleData ?_ t1 ?_
          · intro d hid _
            unfold pExcept
            rw [clearLifecycleData_id, if_pos hid]
          · exact allNodesB_mono commitMemB (pExcept fid commitMemB)
              (pExcept_of fid commitMemB) t1 h1
        have hB : allNodesB (pExcept fid commitMemB) tB = true := by
          rw [htB,
            allNodesB_recalc (pExcept fid commitMemB) (pExcept_commitMemB_recalcFired fid)]
          exact hA
        rw [hoc, ht2]
        refine allNodesB_updateFrame commitMemB fid g3 ?_ _ ?_
        · intro d _ hd
          exact hd
        · rw [allNodesB_recalc commitMemB commitMemB_recalcFired]
          refine allNodesB_updateFrame_set commitMemB fid insC ?_ tB hB
          intro d _
          show decide (LifecycleEvent.commit ∈ insert LifecycleEvent.commit d.fired) = true
          exact decide_eq_true (Finset.mem_insert_self _ _)
  | frameCommittedSameDocumentNavigation fid url =>
    exact commitInvariant_updateLiveFrame st fid _ h
      (fun d _ hd => by rw [commitMemB_frameCommittedSameDocumentNavigationData]; exact hd)
  | frameAbortedNavigation fid docId =>
    exact commitInvariant_updateLiveFrame st fid _ h
      (fun d _ hd => by rw [commitMemB_frameAbortedNavigationData]; exact hd)
  | frameLifecycleEvent fid ev =>
    intro t' ht'
    simp only [applyEvent] at ht'
    rcases hl : lookupFrame st fid with _ | s
    · rw [hl] at ht'
      dsimp only at ht'
      exact h t' ht'
    · rw [hl] at ht'
      dsimp only at ht'
      refine commitInvariant_mapMain st _ h ?_ t' ht'
      intro u hu
      unfold onLifecycleEvent
      rcases hfb : findFrameData fid u with _ | f0
      · exact hu
      · dsimp only
        by_cases hev : ev.toEvent ∈ f0.fired
        · rw [if_pos hev]
          exact hu
        · rw [if_neg hev]
          rw [allNodesB_recalc commitMemB commitMemB_recalcFired]
          refine allNodesB_updateFrame commitMemB fid _ ?_ u hu
          intro d _ hd
          have hd' : LifecycleEvent.commit ∈ d.fired := by
            simpa [commitMemB] using hd
          show decide (LifecycleEvent.commit ∈ insert ev.toEvent d.fired) = true
          exact decide_eq_true (Finset.mem_insert_of_mem hd')
  | requestStarted r =>
    exact commitInvariant_updateLiveFrame st r.frameId _ h
      (fun d _ hd => by rw [commitMemB_requestStartedData]; exact hd)
  | requestFinished r =>
    exact commitInvariant_updateLiveFrame st r.frameId _ h
      (fun d _ hd => by rw [commitMemB_inflightRequestFinishedData]; exact hd)
  | requestFailed r =>
    exact commitInvariant_updateLiveFrame st r.frameId _ h
      (fun d _ hd => by rw [commitMemB_requestFailedData]; exact hd)
  | networkIdleTimerFired fid =>
    intro t' ht'
    simp only [applyEvent] at ht'
    rcases hl : lookupFrame st fid with _ | s
    · rw [hl] at ht'
      dsimp only at ht'
      exact h t' ht'
    · rw [hl] at ht'
      dsimp only at ht'
      by_cases hta : s.data.timerArmed = true
      · rw [if_pos hta] at ht'
        refine commitInvariant_mapMain st _ h ?_ t' ht'
        intro u hu
        rw [allNodesB_recalc commitMemB commitMemB_recalcFired]
        exact allNodesB_updateFrame commitMemB fid
          (fun d => { d with firedNetworkIdleSelf := true }) (fun d _ hd => hd) u hu
      · rw [if_neg hta] at ht'
        exact h t' ht'

/-- **C10**.  Along every event sequence from the initial manager state,
every frame in the tree has `commit` in its fired lifecycle set: it is there
at frame construction, and the lifecycle clear of a new-document commit
re-adds it via the closing `_onLifecycleEvent('commit')`, so waiting for the
`commit` load state resolves immediately at every reachable state. -/
theorem commit_always_fired (evs : List PWEvent) :
    commitInvariant (applyEvents initialManagerState evs) := by
  have key : ∀ (l : List PWEvent) (st : ManagerState), commitInvariant st →
      commitInvariant (applyEvents st l) := by
    intro l
    induction l with
    | nil => intro st hst; exact hst
    | cons e l2 ih =>
      intro st hst
      exact ih (applyEvent st e) (commitInvariant_applyEvent st e hst)
  refine key evs initialManagerState ?_
  intro t' ht'
  exact Option.noConfusion ht'
